import Mathlib

/-!
A verification model of the `recompose` reconciliation core.

This file is a shallow embedding, in Lean, of the reconciliation/state
engine of the `recompose` repository (crate `recompose_core`): the state
slots (`state.rs`), the scope tree and its hooks (`scope.rs`), the
type-erased adapter `AnyCompose` together with the built-in composers
(`lib.rs`), the dynamic-type composer (`dyn_compose.rs`), the keyed
wrapper (`keyed.rs`), and the per-tick systems `set_states`, `recompose`
and `decompose` (`lib.rs`).

Conventions of the embedding:
* Rust's type-erased `Arc<dyn Any>` values become the closed universe
  `Val`, with `Val.tag` playing the role of the runtime type and
  downcasts checked against it.
* The process-wide `unique_id` counter is threaded explicitly as a
  natural number `next`; both scope ids and generated state ids draw
  from it, exactly as both call `unique_id()` in the source.
* Panics (`panic!`) are modelled by an `Option String` carried in every
  result; once set, the remaining steps are skipped and the data built
  so far is kept, so that statements about the moment of the panic can
  be made.
* Composers (`impl Compose`) are defunctionalized into the inductive
  `Comp`; since `compose` bodies are arbitrary Rust code, user closures
  are modelled as a list of hook calls followed by a fixed returned
  child (`Comp.leaf`).
* The interpreter carries a ghost trace `calls : List Nat` recording,
  in order, the id of each scope whose composer's `compose` body is
  invoked.  The trace corresponds to no runtime data; it only counts
  the `self.compose(scope)` call sites.
* Recursion through the tree is made total with a fuel parameter;
  running out of fuel is reported as a (model-only) panic, so theorems
  conditioned on a panic-free run never depend on the fuel value.
-/

/-- `StateId` from `state.rs`: `Generated(usize)` out of the unique-id
counter, or `Manual(usize)` supplied by the caller. -/
inductive StateId where
  | generated (n : Nat)
  | manual (n : Nat)
deriving DecidableEq, Repr

/-- `StateChanged` from `state.rs`. -/
inductive StateChanged where
  | unchanged
  | queued
  | changed
deriving DecidableEq, Repr

/-- The runtime type of an erased value; plays the role of `TypeId` in
downcast checks. -/
inductive TyTag where
  | tUnit
  | tNat
  | tMap
  | tTypeId
deriving DecidableEq, Repr

/-- The closed universe standing in for `Arc<dyn Any + Send + Sync>`.
`map` is the `HashMap<usize, ScopeId>` persisted by the `Vec` composer
(as an association list), `typeId` the `TypeId` slot persisted by
`DynCompose`. -/
inductive Val where
  | unit
  | nat (n : Nat)
  | map (m : List (Nat × Nat))
  | typeId (t : Nat)
deriving DecidableEq, Repr

/-- The runtime type of a value, checked by the modelled downcasts. -/
def Val.tag : Val → TyTag
  | .unit => .tUnit
  | .nat _ => .tNat
  | .map _ => .tMap
  | .typeId _ => .tTypeId

/-- `DynState` from `state.rs`: one type-erased state slot. -/
structure DynState where
  id : StateId
  changed : StateChanged
  value : Val
deriving DecidableEq, Repr

/-- One hook call performed by a user closure during its `compose`
body: `Scope::use_state` or `Scope::use_state_with_id` (`scope.rs`).
The `TyTag` is the requested Rust type `T`, the `Val` the initial
value. -/
inductive HookCall where
  | useState (tag : TyTag) (init : Val)
  | useStateWithId (id : Nat) (tag : TyTag) (init : Val)
deriving DecidableEq, Repr

/-- Defunctionalized composers (`impl Compose` values).

* `empty` is `()` (`lib.rs`),
* `leaf prog child` is a user closure whose body performs the hook
  calls `prog` and returns `child` as its next child description,
* `vecC items` is `Vec<K>` for a keyed collection: each entry is the
  pair of its key (`Key::key`) and the entry's composer,
* `dynC tag inner` is `DynCompose { type_id: tag, compose: inner }`
  (`dyn_compose.rs`),
* `keyedC key tag inner` is
  `Keyed { key, compose: DynCompose { type_id: tag, compose: inner } }`
  (`keyed.rs`). -/
inductive Comp where
  | empty
  | leaf (prog : List HookCall) (child : Comp)
  | vecC (items : List (Nat × Comp))
  | dynC (tag : Nat) (inner : Comp)
  | keyedC (key : Nat) (tag : Nat) (inner : Comp)

/-- `Compose::ignore_children`: `true` for `()`, `Vec`, `DynCompose`;
`Keyed` forwards to its inner `DynCompose`, hence also `true`; user
closures use the default `false`. -/
def Comp.ignoreChildren : Comp → Bool
  | .empty => true
  | .leaf _ _ => false
  | .vecC _ => true
  | .dynC _ _ => true
  | .keyedC _ _ _ => true

/-- `Scope` from `scope.rs`, restricted to the fields the reconciliation
logic reads or writes: `id`, `index`, `will_decompose`, `composer`,
`state_index` (the hook cursor), `states` and `children`.  The
ECS-binding fields (`entity`, `parent_entity`, `child_index`,
`queued_systems`) do not influence any of the modelled behaviour and
are omitted. -/
inductive Scope where
  | mk (id : Nat) (index : Nat) (willDecompose : Bool) (comp : Comp)
       (stateIndex : Nat) (states : List DynState) (children : List Scope)

def Scope.id : Scope → Nat
  | .mk i _ _ _ _ _ _ => i

def Scope.index : Scope → Nat
  | .mk _ x _ _ _ _ _ => x

def Scope.willDecompose : Scope → Bool
  | .mk _ _ w _ _ _ _ => w

def Scope.comp : Scope → Comp
  | .mk _ _ _ c _ _ _ => c

def Scope.stateIndex : Scope → Nat
  | .mk _ _ _ _ s _ _ => s

def Scope.states : Scope → List DynState
  | .mk _ _ _ _ _ st _ => st

def Scope.children : Scope → List Scope
  | .mk _ _ _ _ _ _ ch => ch

/-- `Scope::new` (`scope.rs`): fresh id from the unique counter, the
given reconciliation index and composer, no states, no children. -/
def Scope.new (freshId : Nat) (index : Nat) (c : Comp) : Scope :=
  .mk freshId index false c 0 [] []

mutual

/-- All scope ids occurring in a tree, root first. -/
def treeIds : Scope → List Nat
  | .mk i _ _ _ _ _ ch => i :: forestIds ch

/-- All scope ids occurring in a list of trees. -/
def forestIds : List Scope → List Nat
  | [] => []
  | s :: rest => treeIds s ++ forestIds rest

end

/-- Replace the `stateIndex` (hook cursor) field. -/
def Scope.withStateIndex : Scope → Nat → Scope
  | .mk i x w c _ sts ch, si => .mk i x w c si sts ch

/-- Replace the `states` field. -/
def Scope.withStates : Scope → List DynState → Scope
  | .mk i x w c si _ ch, sts => .mk i x w c si sts ch

/-- Replace the `children` field. -/
def Scope.withChildren : Scope → List Scope → Scope
  | .mk i x w c si sts _, ch => .mk i x w c si sts ch

/-- Replace the `comp` (composer) field. -/
def Scope.withComp : Scope → Comp → Scope
  | .mk i x w _ si sts ch, c => .mk i x w c si sts ch

/-- Replace the `index` field. -/
def Scope.withIndex : Scope → Nat → Scope
  | .mk i _ w c si sts ch, x => .mk i x w c si sts ch

/-- Replace the `willDecompose` field. -/
def Scope.withWillDecompose : Scope → Bool → Scope
  | .mk i x _ c si sts ch, w => .mk i x w c si sts ch

/-- Result of a single hook call: the slot handle that was returned (as
its `DynState` snapshot), the mutated scope, the unique-id counter and
the panic, if any. -/
structure HookRes where
  slot? : Option DynState
  scope : Scope
  next : Nat
  panic : Option String

/-- `Scope::use_state` (`scope.rs` lines 117-137): if a slot exists at
the current cursor, advance the cursor and downcast it (panicking on a
type mismatch, `DynState::to_state`, `state.rs` lines 113-125);
otherwise create a slot with a freshly generated id, flagged `Changed`,
append it and advance the cursor. -/
def useState (tag : TyTag) (init : Val) (s : Scope) (n : Nat) : HookRes :=
  match s.states.get? s.stateIndex with
  | some existing =>
    if existing.value.tag = tag then
      ⟨some existing, s.withStateIndex (s.stateIndex + 1), n, none⟩
    else
      ⟨none, s.withStateIndex (s.stateIndex + 1), n, some "State value type mismatch."⟩
  | none =>
    let slot : DynState := ⟨.generated n, .changed, init⟩
    ⟨some slot, (s.withStates (s.states ++ [slot])).withStateIndex (s.stateIndex + 1),
      n + 1, none⟩

/-- `Scope::use_state_with_id` (`scope.rs` lines 141-165): look the
slot up by its `Manual` id over the whole slot list; advance the cursor
and downcast on a hit; on a miss append a slot with the manual id,
flagged `Changed`, and advance the cursor. -/
def useStateWithId (mid : Nat) (tag : TyTag) (init : Val) (s : Scope) (n : Nat) : HookRes :=
  match s.states.find? (fun st => st.id == StateId.manual mid) with
  | some existing =>
    if existing.value.tag = tag then
      ⟨some existing, s.withStateIndex (s.stateIndex + 1), n, none⟩
    else
      ⟨none, s.withStateIndex (s.stateIndex + 1), n, some "State value type mismatch."⟩
  | none =>
    let slot : DynState := ⟨.manual mid, .changed, init⟩
    ⟨some slot, (s.withStates (s.states ++ [slot])).withStateIndex (s.stateIndex + 1),
      n, none⟩

/-- Update the first slot whose id is `sid`; `none` when no slot has
that id (modelling `states.iter_mut().find(..)` returning `None`). -/
def updateFirstSlot (sid : StateId) (f : DynState → DynState) :
    List DynState → Option (List DynState)
  | [] => none
  | st :: rest =>
    if st.id = sid then some (f st :: rest)
    else (updateFirstSlot sid f rest).map (st :: ·)

/-- `Scope::set_state` / `set_state_unchanged` / `set_state_with_id`
(`scope.rs` lines 168-216): find the slot by id (panic `State not
found.` if absent), check the value type (panic on mismatch), replace
the value, and — for the flagged variants — set the changed flag to
`Queued`. -/
def setStateById (sid : StateId) (v : Val) (markQueued : Bool) (s : Scope) :
    Scope × Option String :=
  match s.states.find? (fun st => st.id == sid) with
  | none => (s, some "State not found.")
  | some found =>
    if found.value.tag = v.tag then
      match updateFirstSlot sid
          (fun st => ⟨st.id, if markQueued then .queued else st.changed, v⟩) s.states with
      | some sts => (s.withStates sts, none)
      | none => (s, some "State not found.")
    else (s, some "State value type mismatch.")

/-- Run the hook calls of a user closure in order, aborting at the
first panic. -/
def runHooks : List HookCall → Scope → Nat → Scope × Nat × Option String
  | [], s, n => (s, n, none)
  | h :: rest, s, n =>
    let hr := match h with
      | .useState tag init => useState tag init s n
      | .useStateWithId i tag init => useStateWithId i tag init s n
    match hr.panic with
    | some p => (hr.scope, hr.next, some p)
    | none => runHooks rest hr.scope hr.next

/-- The `Queued → Changed` promotion run at the start of
`recompose_scope` (`lib.rs` lines 290-294). -/
def promoteSlot (st : DynState) : DynState :=
  match st.changed with
  | .queued => ⟨st.id, .changed, st.value⟩
  | _ => st

def promoteQueued (l : List DynState) : List DynState := l.map promoteSlot

/-- The `Changed → Unchanged` demotion run after the compose body
(`lib.rs` lines 298-302). -/
def demoteSlot (st : DynState) : DynState :=
  match st.changed with
  | .changed => ⟨st.id, .unchanged, st.value⟩
  | _ => st

def demoteChanged (l : List DynState) : List DynState := l.map demoteSlot

/-- The scope as the compose body receives it: hook cursor reset to
zero and every `Queued` slot promoted to `Changed` (`lib.rs` lines
288-294). -/
def composeInput (s : Scope) : Scope :=
  (s.withStateIndex 0).withStates (promoteQueued s.states)

/-- Result of running a piece of the reconciliation engine: the mutated
scope, the unique-id counter, the ghost trace of compose-body
invocations (ids of the scopes whose composer's `compose` ran, in
order), and the panic, if any.  On a panic the scope holds the
mutations applied up to the moment of the panic. -/
structure Res where
  scope : Scope
  next : Nat
  calls : List Nat
  panic : Option String

/-- The compose body's returned "next child description": user closures
return their fixed child; the composite and empty composers return `()`
(and ignore children anyway). -/
def Comp.childOf : Comp → Comp
  | .leaf _ child => child
  | _ => .empty

/-- Association-list model of the persisted `HashMap<usize, ScopeId>`
of the `Vec` composer. -/
def mapLookup (k : Nat) : List (Nat × Nat) → Option Nat
  | [] => none
  | (a, b) :: rest => if a = k then some b else mapLookup k rest

def mapInsert (k v : Nat) : List (Nat × Nat) → List (Nat × Nat)
  | [] => [(k, v)]
  | (a, b) :: rest => if a = k then (a, v) :: rest else (a, b) :: mapInsert k v rest

def mapRemove (k : Nat) : List (Nat × Nat) → List (Nat × Nat)
  | [] => []
  | (a, b) :: rest => if a = k then rest else (a, b) :: mapRemove k rest

/-- Read the persisted key-to-id map out of an erased value. Used only
after the `use_state` downcast to the map type has succeeded. -/
def mapOfVal : Val → List (Nat × Nat)
  | .map m => m
  | _ => []

/-- The duplicate-key scan of the `Vec` composer (`lib.rs` lines
137-142). -/
def hasDuplicate : List Nat → Bool
  | [] => false
  | k :: rest => rest.contains k || hasDuplicate rest

/-- `cx.children.iter_mut().find(|s| s.id == *scope_id)` as a read. -/
def findChild (sid : Nat) : List Scope → Option Scope
  | [] => none
  | t :: rest => if t.id = sid then some t else findChild sid rest

/-- Write back an in-place mutation of the first child with id `sid`. -/
def replaceFirstChild (sid : Nat) (t2 : Scope) : List Scope → List Scope
  | [] => []
  | t :: rest => if t.id = sid then t2 :: rest else t :: replaceFirstChild sid t2 rest

/-- Set `will_decompose` on the first child with id `sid`. -/
def markFirstChild (sid : Nat) : List Scope → List Scope
  | [] => []
  | t :: rest =>
    if t.id = sid then t.withWillDecompose true :: rest
    else t :: markFirstChild sid rest

/-- The second loop of the `Vec` composer (`lib.rs` lines 179-191):
for every entry of the (post-loop) map snapshot whose key is absent
from the new keys, remove the entry and mark the matching child for
decomposition (skipping entries whose child is gone). -/
def vecMark (snapshot : List (Nat × Nat)) (keys : List Nat)
    (m : List (Nat × Nat)) (ch : List Scope) : List (Nat × Nat) × List Scope :=
  match snapshot with
  | [] => (m, ch)
  | (key, sid) :: rest =>
    if key ∈ keys then vecMark rest keys m ch
    else
      let m' := mapRemove key m
      match findChild sid ch with
      | none => vecMark rest keys m' ch
      | some _ => vecMark rest keys m' (markFirstChild sid ch)

mutual

/-- `AnyCompose::recompose_scope` for `impl<C: Compose> AnyCompose for C`
(`lib.rs` lines 287-336): reset the hook cursor, promote `Queued`
slots to `Changed`, invoke the compose body (logged in the ghost
trace), demote `Changed` slots to `Unchanged`, then — unless the
composer manages its own children — reconcile the sole child: replace
the first child's composer with the returned child description and
recompose it, or create and compose a brand-new child scope. -/
def recomposeScope : Nat → Comp → Scope → Nat → Res
  | 0, _, s, n => ⟨s, n, [], some "model: out of fuel"⟩
  | fuel+1, c, s, n =>
    match composeBody fuel c (composeInput s) n with
    | ⟨s2, n2, cs2, some p⟩ => ⟨s2, n2, s.id :: cs2, some p⟩
    | ⟨s2, n2, cs2, none⟩ =>
      let s3 := s2.withStates (demoteChanged s2.states)
      if c.ignoreChildren then ⟨s3, n2, s.id :: cs2, none⟩
      else
        match s3.children with
        | t :: rest =>
          match recomposeScope fuel c.childOf (t.withComp c.childOf) n2 with
          | ⟨t2, n3, cs3, p3⟩ => ⟨s3.withChildren (t2 :: rest), n3, s.id :: (cs2 ++ cs3), p3⟩
        | [] =>
          match recomposeScope fuel c.childOf (Scope.new n2 0 c.childOf) (n2 + 1) with
          | ⟨_, n3, cs3, some p⟩ => ⟨s3, n3, s.id :: (cs2 ++ cs3), some p⟩
          | ⟨t2, n3, cs3, none⟩ => ⟨s3.withChildren [t2], n3, s.id :: (cs2 ++ cs3), none⟩
termination_by structural fuel _ _ _ => fuel

/-- Dispatch of `Compose::compose` over the modelled composers.
`Keyed::compose` forwards to `DynCompose::compose` (`keyed.rs` lines
20-22). -/
def composeBody : Nat → Comp → Scope → Nat → Res
  | 0, _, s, n => ⟨s, n, [], some "model: out of fuel"⟩
  | _+1, .empty, s, n => ⟨s, n, [], none⟩
  | _+1, .leaf prog _, s, n =>
    match runHooks prog s n with
    | (s1, n1, p) => ⟨s1, n1, [], p⟩
  | fuel+1, .vecC items, s, n => vecBody fuel items s n
  | fuel+1, .dynC tag inner, s, n => dynBody fuel tag inner s n
  | fuel+1, .keyedC _ tag inner, s, n => dynBody fuel tag inner s n
termination_by structural fuel _ _ _ => fuel

/-- `impl Compose for Vec<K>` (`lib.rs` lines 130-194): read the
persisted key-to-id map with `use_state`, panic on duplicate keys,
then walk the input, recomposing the matching child in place or
creating a brand-new one, then mark children whose key disappeared,
and store the updated map with `set_state_unchanged`. -/
def vecBody : Nat → List (Nat × Comp) → Scope → Nat → Res
  | 0, _, s, n => ⟨s, n, [], some "model: out of fuel"⟩
  | fuel+1, items, s, n =>
    match useState .tMap (.map []) s n with
    | ⟨none, s1, n1, p⟩ => ⟨s1, n1, [], p⟩
    | ⟨some slot, s1, n1, _⟩ =>
      let m0 := mapOfVal slot.value
      let keys := items.map Prod.fst
      if hasDuplicate keys then ⟨s1, n1, [], some "Duplicate key found"⟩
      else
        match vecLoop fuel items 0 m0 m0 s1 n1 with
        | (⟨s2, n2, cs, some p⟩, _) => ⟨s2, n2, cs, some p⟩
        | (⟨s2, n2, cs, none⟩, m2) =>
          match vecMark m2 keys m2 s2.children with
          | (m3, ch3) =>
            match setStateById slot.id (.map m3) false (s2.withChildren ch3) with
            | (s4, p) => ⟨s4, n2, cs, p⟩
termination_by structural fuel _ _ _ => fuel

/-- The per-item loop of the `Vec` composer (`lib.rs` lines 154-177):
`orig` is the map snapshot held by the `use_state` handle (used for
lookups), `modified` the map being rebuilt. -/
def vecLoop : Nat → List (Nat × Comp) → Nat → List (Nat × Nat) → List (Nat × Nat) →
    Scope → Nat → Res × List (Nat × Nat)
  | 0, _, _, _, modified, s, n => (⟨s, n, [], some "model: out of fuel"⟩, modified)
  | _+1, [], _, _, modified, s, n => (⟨s, n, [], none⟩, modified)
  | fuel+1, (key, kc) :: rest, index, orig, modified, s, n =>
    match (mapLookup key orig).bind (fun sid => findChild sid s.children) with
    | some t =>
      match recomposeScope fuel kc ((t.withIndex index).withComp kc) n with
      | ⟨t2, n2, cs2, some p⟩ =>
        (⟨s.withChildren (replaceFirstChild t.id t2 s.children), n2, cs2, some p⟩, modified)
      | ⟨t2, n2, cs2, none⟩ =>
        match vecLoop fuel rest (index + 1) orig modified
            (s.withChildren (replaceFirstChild t.id t2 s.children)) n2 with
        | (⟨s3, n3, cs3, p3⟩, m3) => (⟨s3, n3, cs2 ++ cs3, p3⟩, m3)
    | none =>
      match recomposeScope fuel kc (Scope.new n index kc) (n + 1) with
      | ⟨_, n2, cs2, some p⟩ => (⟨s, n2, cs2, some p⟩, modified)
      | ⟨t2, n2, cs2, none⟩ =>
        match vecLoop fuel rest (index + 1) orig (mapInsert key n modified)
            (s.withChildren (s.children ++ [t2])) n2 with
        | (⟨s3, n3, cs3, p3⟩, m3) => (⟨s3, n3, cs2 ++ cs3, p3⟩, m3)
termination_by structural fuel _ _ _ _ _ _ => fuel

/-- `DynCompose::compose` (`dyn_compose.rs` lines 38-83): read the
remembered type tag with `use_state`; with an existing first child,
either remount (tag differs: mark it, build a brand-new child) or
recompose it in place (tag matches: replace its composer); with no
child, build one. -/
def dynBody : Nat → Nat → Comp → Scope → Nat → Res
  | 0, _, _, s, n => ⟨s, n, [], some "model: out of fuel"⟩
  | fuel+1, tag, inner, s, n =>
    match useState .tTypeId (.typeId tag) s n with
    | ⟨none, s1, n1, p⟩ => ⟨s1, n1, [], p⟩
    | ⟨some slot, s1, n1, _⟩ =>
      match s1.children with
      | t :: rest =>
        if slot.value = Val.typeId tag then
          match recomposeScope fuel inner (t.withComp inner) n1 with
          | ⟨t2, n2, cs2, p2⟩ => ⟨s1.withChildren (t2 :: rest), n2, cs2, p2⟩
        else
          dynCreateNew fuel tag inner slot.id
            (s1.withChildren (t.withWillDecompose true :: rest)) n1
      | [] => dynCreateNew fuel tag inner slot.id s1 n1
termination_by structural fuel _ _ _ _ => fuel

/-- The `create_new_scope` closure of `DynCompose::compose`
(`dyn_compose.rs` lines 51-61): build a scope (fresh id, empty state)
for the inner composer, compose it, append it to the children and
record the new type tag through `set_state` on the handle. -/
def dynCreateNew : Nat → Nat → Comp → StateId → Scope → Nat → Res
  | 0, _, _, _, s, n => ⟨s, n, [], some "model: out of fuel"⟩
  | fuel+1, tag, inner, handleId, s, n =>
    match recomposeScope fuel inner (Scope.new n 0 inner) (n + 1) with
    | ⟨_, n2, cs2, some p⟩ => ⟨s, n2, cs2, some p⟩
    | ⟨t2, n2, cs2, none⟩ =>
      match setStateById handleId (.typeId tag) true (s.withChildren (s.children ++ [t2])) with
      | (s3, p) => ⟨s3, n2, cs2, p⟩
termination_by structural fuel _ _ _ _ _ => fuel

end

/-- `AnyCompose::decompose_scope` (`lib.rs` lines 338-340): it calls
`Compose::decompose` on the scope and nothing else.  The default
`decompose` is a no-op (`lib.rs` lines 75-77) and none of `()`,
closures, `Vec` or `DynCompose` overrides it; `Keyed` overrides it
with `self.compose.compose(cx)` (`keyed.rs` lines 24-26), that is, it
runs its inner `DynCompose`'s *compose* body. -/
def decomposeScope (fuel : Nat) (c : Comp) (s : Scope) (n : Nat) : Res :=
  match c with
  | .keyedC _ tag inner => dynBody fuel tag inner s n
  | _ => ⟨s, n, [], none⟩

/-- Does any slot of this scope have the `Queued` flag
(`lib.rs` lines 449-452)? -/
def anyQueued (s : Scope) : Bool :=
  s.states.any fun st => st.changed == StateChanged.queued

mutual

/-- The `recompose` system (`lib.rs` lines 440-466) on one tree: a
pre-order walk; a scope with a `Queued` slot that is not marked for
decomposition is recomposed through the adapter (and its subtree is
not walked further — `recompose_scope` recurses internally); other
scopes are skipped but their children are still visited. -/
def recomposeSystem (fuel : Nat) : Scope → Nat → Res
  | .mk i x w c si sts ch, n =>
    if anyQueued (.mk i x w c si sts ch) && !w then
      recomposeScope fuel c (.mk i x w c si sts ch) n
    else
      match recomposeForest fuel ch n with
      | (ch1, n1, cs, p) => ⟨.mk i x w c si sts ch1, n1, cs, p⟩
termination_by s _ => sizeOf s

/-- The `recompose` walk over a list of sibling scopes, in order. -/
def recomposeForest (fuel : Nat) : List Scope → Nat →
    List Scope × Nat × List Nat × Option String
  | [], n => ([], n, [], none)
  | t :: rest, n =>
    match recomposeSystem fuel t n with
    | ⟨t1, n1, cs1, some p⟩ => (t1 :: rest, n1, cs1, some p)
    | ⟨t1, n1, cs1, none⟩ =>
      match recomposeForest fuel rest n1 with
      | (rest1, n2, cs2, p) => (t1 :: rest1, n2, cs1 ++ cs2, p)
termination_by l _ => sizeOf l

end

/-- `StateSetterAction` (`state.rs` lines 7-10): a pending external
mutation, `Set(value, should_change)` or `Modify(f)` where `f` maps
the old value to the new value and the should-change flag. -/
inductive MutAction where
  | set (v : Val) (should : Bool)
  | modify (f : Val → Val × Bool)

/-- Applying one action to a slot's current value (`lib.rs` lines
421-424). -/
def MutAction.apply : MutAction → Val → Val × Bool
  | .set v b, _ => (v, b)
  | .modify f, old => f old

/-- `SetState::set` (`state.rs` lines 24-29). -/
def actionOfSet (v : Val) : MutAction := .set v true

/-- `SetState::set_unchanged` (`state.rs` lines 54-59). -/
def actionOfSetUnchanged (v : Val) : MutAction := .set v false

/-- `SetState::modify` (`state.rs` lines 62-75). -/
def actionOfModify (f : Val → Val) : MutAction := .modify fun old => (f old, true)

/-- `SetState::modify_unchanged` (`state.rs` lines 78-91). -/
def actionOfModifyUnchanged (f : Val → Val) : MutAction := .modify fun old => (f old, false)

/-- `HashMap::insert` on the mutation queue: replace the action already
stored under the id, or add the entry. -/
def qInsert : List (StateId × MutAction) → StateId → MutAction → List (StateId × MutAction)
  | [], sid, a => [(sid, a)]
  | (i, b) :: rest, sid, a =>
    if i = sid then (i, a) :: rest else (i, b) :: qInsert rest sid a

/-- The queue built from a sequence of submissions: each submission is
one `SetState::…` call, and later submissions for the same id
overwrite earlier ones (`self.setter.queued.insert`). -/
def buildQueue (subs : List (StateId × MutAction)) : List (StateId × MutAction) :=
  subs.foldl (fun q p => qInsert q p.1 p.2) []

/-- `HashMap::remove` on the queue: take the action stored under the
id out of the queue, if present (`lib.rs` line 417). -/
def qTake (sid : StateId) : List (StateId × MutAction) →
    Option (MutAction × List (StateId × MutAction))
  | [] => none
  | (i, a) :: rest =>
    if i = sid then some (a, rest)
    else
      match qTake sid rest with
      | none => none
      | some (b, rest1) => some (b, (i, a) :: rest1)

/-- The slot loop of the `set_states` system (`lib.rs` lines 416-431):
for each slot in order, remove the queued action for its id if there
is one, replace the slot's value by the action's result, and set the
flag to `Queued` exactly if the action's should-change flag is set
(the flag is otherwise left alone). -/
def applySlots (q : List (StateId × MutAction)) :
    List DynState → List DynState × List (StateId × MutAction)
  | [] => ([], q)
  | st :: rest =>
    match qTake st.id q with
    | none =>
      match applySlots q rest with
      | (rest1, q1) => (st :: rest1, q1)
    | some (a, q1) =>
      let (v, should) := a.apply st.value
      let st1 : DynState := ⟨st.id, if should then .queued else st.changed, v⟩
      match applySlots q1 rest with
      | (rest1, q2) => (st1 :: rest1, q2)

mutual

/-- The `set_states` system (`lib.rs` lines 407-438) on one tree: a
pre-order walk applying (and consuming) the queued action for every
slot id it encounters. -/
def setStatesScope : Scope → List (StateId × MutAction) → Scope × List (StateId × MutAction)
  | .mk i x w c si sts ch, q =>
    match applySlots q sts with
    | (sts1, q1) =>
      match setStatesForest ch q1 with
      | (ch1, q2) => (.mk i x w c si sts1 ch1, q2)

/-- The `set_states` walk over sibling scopes, in order. -/
def setStatesForest : List Scope → List (StateId × MutAction) →
    List Scope × List (StateId × MutAction)
  | [], q => ([], q)
  | t :: rest, q =>
    match setStatesScope t q with
    | (t1, q1) =>
      match setStatesForest rest q1 with
      | (rest1, q2) => (t1 :: rest1, q2)

end

/-! ## Basic lemmas about the scope accessors -/

@[simp] theorem id_mk (i x w c si sts ch) : (Scope.mk i x w c si sts ch).id = i := rfl

@[simp] theorem index_mk (i x w c si sts ch) : (Scope.mk i x w c si sts ch).index = x := rfl

@[simp] theorem willDecompose_mk (i x w c si sts ch) :
    (Scope.mk i x w c si sts ch).willDecompose = w := rfl

@[simp] theorem comp_mk (i x w c si sts ch) : (Scope.mk i x w c si sts ch).comp = c := rfl

@[simp] theorem stateIndex_mk (i x w c si sts ch) :
    (Scope.mk i x w c si sts ch).stateIndex = si := rfl

@[simp] theorem states_mk (i x w c si sts ch) : (Scope.mk i x w c si sts ch).states = sts := rfl

@[simp] theorem children_mk (i x w c si sts ch) :
    (Scope.mk i x w c si sts ch).children = ch := rfl

theorem scope_eta (s : Scope) :
    s = .mk s.id s.index s.willDecompose s.comp s.stateIndex s.states s.children := by
  cases s; rfl

@[simp] theorem withStateIndex_id (s v) : (Scope.withStateIndex s v).id = s.id := by
  cases s; rfl

@[simp] theorem withStateIndex_index (s v) : (Scope.withStateIndex s v).index = s.index := by
  cases s; rfl

@[simp] theorem withStateIndex_willDecompose (s v) :
    (Scope.withStateIndex s v).willDecompose = s.willDecompose := by cases s; rfl

@[simp] theorem withStateIndex_comp (s v) : (Scope.withStateIndex s v).comp = s.comp := by
  cases s; rfl

@[simp] theorem withStateIndex_stateIndex (s v) : (Scope.withStateIndex s v).stateIndex = v := by
  cases s; rfl

@[simp] theorem withStateIndex_states (s v) : (Scope.withStateIndex s v).states = s.states := by
  cases s; rfl

@[simp] theorem withStateIndex_children (s v) :
    (Scope.withStateIndex s v).children = s.children := by cases s; rfl

@[simp] theorem withStates_id (s v) : (Scope.withStates s v).id = s.id := by cases s; rfl

@[simp] theorem withStates_index (s v) : (Scope.withStates s v).index = s.index := by
  cases s; rfl

@[simp] theorem withStates_willDecompose (s v) :
    (Scope.withStates s v).willDecompose = s.willDecompose := by cases s; rfl

@[simp] theorem withStates_comp (s v) : (Scope.withStates s v).comp = s.comp := by
  cases s; rfl

@[simp] theorem withStates_stateIndex (s v) : (Scope.withStates s v).stateIndex = s.stateIndex := by
  cases s; rfl

@[simp] theorem withStates_states (s v) : (Scope.withStates s v).states = v := by cases s; rfl

@[simp] theorem withStates_children (s v) : (Scope.withStates s v).children = s.children := by
  cases s; rfl

@[simp] theorem withChildren_id (s v) : (Scope.withChildren s v).id = s.id := by cases s; rfl

@[simp] theorem withChildren_index (s v) : (Scope.withChildren s v).index = s.index := by
  cases s; rfl

@[simp] theorem withChildren_willDecompose (s v) :
    (Scope.withChildren s v).willDecompose = s.willDecompose := by cases s; rfl

@[simp] theorem withChildren_comp (s v) : (Scope.withChildren s v).comp = s.comp := by
  cases s; rfl

@[simp] theorem withChildren_stateIndex (s v) :
    (Scope.withChildren s v).stateIndex = s.stateIndex := by cases s; rfl

@[simp] theorem withChildren_states (s v) : (Scope.withChildren s v).states = s.states := by
  cases s; rfl

@[simp] theorem withChildren_children (s v) : (Scope.withChildren s v).children = v := by
  cases s; rfl

@[simp] theorem withComp_id (s v) : (Scope.withComp s v).id = s.id := by cases s; rfl

@[simp] theorem withComp_index (s v) : (Scope.withComp s v).index = s.index := by cases s; rfl

@[simp] theorem withComp_willDecompose (s v) :
    (Scope.withComp s v).willDecompose = s.willDecompose := by cases s; rfl

@[simp] theorem withComp_comp (s v) : (Scope.withComp s v).comp = v := by cases s; rfl

@[simp] theorem withComp_stateIndex (s v) : (Scope.withComp s v).stateIndex = s.stateIndex := by
  cases s; rfl

@[simp] theorem withComp_states (s v) : (Scope.withComp s v).states = s.states := by
  cases s; rfl

@[simp] theorem withComp_children (s v) : (Scope.withComp s v).children = s.children := by
  cases s; rfl

@[simp] theorem withIndex_id (s v) : (Scope.withIndex s v).id = s.id := by cases s; rfl

@[simp] theorem withIndex_index (s v) : (Scope.withIndex s v).index = v := by cases s; rfl

@[simp] theorem withIndex_willDecompose (s v) :
    (Scope.withIndex s v).willDecompose = s.willDecompose := by cases s; rfl

@[simp] theorem withIndex_comp (s v) : (Scope.withIndex s v).comp = s.comp := by cases s; rfl

@[simp] theorem withIndex_stateIndex (s v) : (Scope.withIndex s v).stateIndex = s.stateIndex := by
  cases s; rfl

@[simp] theorem withIndex_states (s v) : (Scope.withIndex s v).states = s.states := by
  cases s; rfl

@[simp] theorem withIndex_children (s v) : (Scope.withIndex s v).children = s.children := by
  cases s; rfl

@[simp] theorem withWillDecompose_id (s v) : (Scope.withWillDecompose s v).id = s.id := by
  cases s; rfl

@[simp] theorem withWillDecompose_index (s v) : (Scope.withWillDecompose s v).index = s.index := by
  cases s; rfl

@[simp] theorem withWillDecompose_willDecompose (s v) :
    (Scope.withWillDecompose s v).willDecompose = v := by cases s; rfl

@[simp] theorem withWillDecompose_comp (s v) : (Scope.withWillDecompose s v).comp = s.comp := by
  cases s; rfl

@[simp] theorem withWillDecompose_stateIndex (s v) :
    (Scope.withWillDecompose s v).stateIndex = s.stateIndex := by cases s; rfl

@[simp] theorem withWillDecompose_states (s v) :
    (Scope.withWillDecompose s v).states = s.states := by cases s; rfl

@[simp] theorem withWillDecompose_children (s v) :
    (Scope.withWillDecompose s v).children = s.children := by cases s; rfl

@[simp] theorem composeInput_id (s) : (composeInput s).id = s.id := by
  simp [composeInput]

@[simp] theorem composeInput_children (s) : (composeInput s).children = s.children := by
  simp [composeInput]

@[simp] theorem composeInput_states (s) : (composeInput s).states = promoteQueued s.states := by
  simp [composeInput]

@[simp] theorem composeInput_stateIndex (s) : (composeInput s).stateIndex = 0 := by
  simp [composeInput]

theorem treeIds_def (s : Scope) : treeIds s = s.id :: forestIds s.children := by
  cases s; rfl

/-! ## Promotion and demotion of changed flags -/

@[simp] theorem promoteSlot_id (st : DynState) : (promoteSlot st).id = st.id := by
  cases st with
  | mk i c v => cases c <;> rfl

@[simp] theorem promoteSlot_value (st : DynState) : (promoteSlot st).value = st.value := by
  cases st with
  | mk i c v => cases c <;> rfl

@[simp] theorem demoteSlot_id (st : DynState) : (demoteSlot st).id = st.id := by
  cases st with
  | mk i c v => cases c <;> rfl

@[simp] theorem demoteSlot_value (st : DynState) : (demoteSlot st).value = st.value := by
  cases st with
  | mk i c v => cases c <;> rfl

theorem promoteSlot_of_queued (st : DynState) (h : st.changed = .queued) :
    (promoteSlot st).changed = .changed := by
  cases st with
  | mk i c v => cases c <;> simp_all [promoteSlot]

theorem promoteSlot_of_unchanged (st : DynState) (h : st.changed = .unchanged) :
    (promoteSlot st).changed = .unchanged := by
  cases st with
  | mk i c v => cases c <;> simp_all [promoteSlot]

theorem demoteSlot_not_changed (st : DynState) : (demoteSlot st).changed ≠ .changed := by
  cases st with
  | mk i c v => cases c <;> simp [demoteSlot]

theorem demoteSlot_of_changed (st : DynState) (h : st.changed = .changed) :
    (demoteSlot st).changed = .unchanged := by
  cases st with
  | mk i c v => cases c <;> simp_all [demoteSlot]

@[simp] theorem promoteQueued_length (l : List DynState) :
    (promoteQueued l).length = l.length := by simp [promoteQueued]

@[simp] theorem demoteChanged_length (l : List DynState) :
    (demoteChanged l).length = l.length := by simp [demoteChanged]

theorem demoteChanged_no_changed (l : List DynState) :
    ∀ st ∈ demoteChanged l, st.changed ≠ .changed := by
  intro st h
  simp only [demoteChanged, List.mem_map] at h
  obtain ⟨a, _, rfl⟩ := h
  exact demoteSlot_not_changed a

theorem promoteQueued_get (l : List DynState) (i : Nat) (h : i < l.length) :
    (promoteQueued l).get ⟨i, by simpa using h⟩ = promoteSlot (l.get ⟨i, h⟩) := by
  simp [promoteQueued]

theorem demoteChanged_get (l : List DynState) (i : Nat) (h : i < l.length) :
    (demoteChanged l).get ⟨i, by simpa using h⟩ = demoteSlot (l.get ⟨i, h⟩) := by
  simp [demoteChanged]

/-! ## Tree-id bookkeeping -/

theorem forestIds_append (l1 l2 : List Scope) :
    forestIds (l1 ++ l2) = forestIds l1 ++ forestIds l2 := by
  induction l1 with
  | nil => simp [forestIds]
  | cons t rest ih => simp [forestIds, ih, List.append_assoc]

theorem treeIds_withWillDecompose (s : Scope) (b : Bool) :
    treeIds (s.withWillDecompose b) = treeIds s := by
  cases s; rfl

theorem treeIds_withComp (s : Scope) (c : Comp) : treeIds (s.withComp c) = treeIds s := by
  cases s; rfl

theorem treeIds_withIndex (s : Scope) (v : Nat) : treeIds (s.withIndex v) = treeIds s := by
  cases s; rfl

theorem treeIds_withStates (s : Scope) (v : List DynState) :
    treeIds (s.withStates v) = treeIds s := by
  cases s; rfl

theorem treeIds_withStateIndex (s : Scope) (v : Nat) :
    treeIds (s.withStateIndex v) = treeIds s := by
  cases s; rfl

theorem treeIds_withChildren (s : Scope) (ch : List Scope) :
    treeIds (s.withChildren ch) = s.id :: forestIds ch := by
  cases s; rfl

theorem treeIds_composeInput (s : Scope) : treeIds (composeInput s) = treeIds s := by
  cases s; rfl

theorem mem_forestIds_of_mem_treeIds (t : Scope) (l : List Scope) (ht : t ∈ l) :
    ∀ x ∈ treeIds t, x ∈ forestIds l := by
  induction l with
  | nil => cases ht
  | cons a rest ih =>
    intro x hx
    rcases List.mem_cons.mp ht with h | h
    · subst h
      simp [forestIds, hx]
    · simp [forestIds]
      exact Or.inr (ih h x hx)

theorem findChild_mem (sid : Nat) (l : List Scope) (t : Scope)
    (h : findChild sid l = some t) : t ∈ l := by
  induction l with
  | nil => simp [findChild] at h
  | cons a rest ih =>
    by_cases ha : a.id = sid
    · simp [findChild, ha] at h
      simp [← h]
    · simp [findChild, ha] at h
      exact List.mem_cons_of_mem _ (ih h)

theorem forestIds_replaceFirstChild (sid : Nat) (t2 : Scope) (l : List Scope) :
    ∀ x ∈ forestIds (replaceFirstChild sid t2 l), x ∈ forestIds l ∨ x ∈ treeIds t2 := by
  induction l with
  | nil => simp [replaceFirstChild, forestIds]
  | cons a rest ih =>
    intro x hx
    by_cases ha : a.id = sid
    · simp [replaceFirstChild, ha, forestIds] at hx
      rcases hx with h | h
      · exact Or.inr h
      · exact Or.inl (by simp [forestIds]; exact Or.inr h)
    · simp [replaceFirstChild, ha, forestIds] at hx
      rcases hx with h | h
      · exact Or.inl (by simp [forestIds]; exact Or.inl h)
      · rcases ih x h with h1 | h1
        · exact Or.inl (by simp [forestIds]; exact Or.inr h1)
        · exact Or.inr h1

theorem forestIds_markFirstChild (sid : Nat) (l : List Scope) :
    forestIds (markFirstChild sid l) = forestIds l := by
  induction l with
  | nil => rfl
  | cons a rest ih =>
    by_cases ha : a.id = sid
    · simp [markFirstChild, ha, forestIds, treeIds_withWillDecompose]
    · simp [markFirstChild, ha, forestIds, ih]

theorem forestIds_vecMark (snapshot : List (Nat × Nat)) (keys : List Nat)
    (m : List (Nat × Nat)) (ch : List Scope) :
    forestIds (vecMark snapshot keys m ch).2 = forestIds ch := by
  induction snapshot generalizing m ch with
  | nil => rfl
  | cons p rest ih =>
    obtain ⟨key, sid⟩ := p
    by_cases hk : key ∈ keys
    · simp [vecMark, hk, ih]
    · simp only [vecMark, if_neg hk]
      cases h : findChild sid ch with
      | none => simp [ih]
      | some t => simp [ih, forestIds_markFirstChild]

/-! ## The hook calls do not touch identity or children -/

theorem useState_id (tag init s n) : (useState tag init s n).scope.id = s.id := by
  unfold useState
  cases h : s.states.get? s.stateIndex with
  | none => simp
  | some st => by_cases ht : st.value.tag = tag <;> simp [ht]

theorem useState_children (tag init s n) :
    (useState tag init s n).scope.children = s.children := by
  unfold useState
  cases h : s.states.get? s.stateIndex with
  | none => simp
  | some st => by_cases ht : st.value.tag = tag <;> simp [ht]

theorem useState_next (tag init s n) :
    n ≤ (useState tag init s n).next ∧ (useState tag init s n).next ≤ n + 1 := by
  unfold useState
  cases h : s.states.get? s.stateIndex with
  | none => simp
  | some st => by_cases ht : st.value.tag = tag <;> simp [ht]

theorem useStateWithId_id (mid tag init s n) :
    (useStateWithId mid tag init s n).scope.id = s.id := by
  unfold useStateWithId
  cases h : s.states.find? (fun st => st.id == StateId.manual mid) with
  | none => simp
  | some st => by_cases ht : st.value.tag = tag <;> simp [ht]

theorem useStateWithId_children (mid tag init s n) :
    (useStateWithId mid tag init s n).scope.children = s.children := by
  unfold useStateWithId
  cases h : s.states.find? (fun st => st.id == StateId.manual mid) with
  | none => simp
  | some st => by_cases ht : st.value.tag = tag <;> simp [ht]

theorem useStateWithId_next (mid tag init s n) :
    (useStateWithId mid tag init s n).next = n := by
  unfold useStateWithId
  cases h : s.states.find? (fun st => st.id == StateId.manual mid) with
  | none => simp
  | some st => by_cases ht : st.value.tag = tag <;> simp [ht]

theorem setStateById_id (sid v mq s) : (setStateById sid v mq s).1.id = s.id := by
  unfold setStateById
  cases h : s.states.find? (fun st => st.id == sid) with
  | none => simp
  | some st =>
    by_cases ht : st.value.tag = v.tag
    · simp only [ht, if_true]
      cases h2 : updateFirstSlot sid (fun st => ⟨st.id, if mq then .queued else st.changed, v⟩)
        s.states with
      | none => simp
      | some sts => simp
    · simp [ht]

theorem setStateById_children (sid v mq s) :
    (setStateById sid v mq s).1.children = s.children := by
  unfold setStateById
  cases h : s.states.find? (fun st => st.id == sid) with
  | none => simp
  | some st =>
    by_cases ht : st.value.tag = v.tag
    · simp only [ht, if_true]
      cases h2 : updateFirstSlot sid (fun st => ⟨st.id, if mq then .queued else st.changed, v⟩)
        s.states with
      | none => simp
      | some sts => simp
    · simp [ht]

theorem runHooks_id (prog : List HookCall) (s : Scope) (n : Nat) :
    (runHooks prog s n).1.id = s.id := by
  induction prog generalizing s n with
  | nil => simp [runHooks]
  | cons h rest ih =>
    simp only [runHooks]
    cases h with
    | useState tag init =>
      cases hp : (useState tag init s n).panic with
      | some p => simpa using useState_id tag init s n
      | none => rw [ih]; exact useState_id tag init s n
    | useStateWithId mid tag init =>
      cases hp : (useStateWithId mid tag init s n).panic with
      | some p => simpa using useStateWithId_id mid tag init s n
      | none => rw [ih]; exact useStateWithId_id mid tag init s n

theorem runHooks_children (prog : List HookCall) (s : Scope) (n : Nat) :
    (runHooks prog s n).1.children = s.children := by
  induction prog generalizing s n with
  | nil => simp [runHooks]
  | cons h rest ih =>
    simp only [runHooks]
    cases h with
    | useState tag init =>
      cases hp : (useState tag init s n).panic with
      | some p => simpa using useState_children tag init s n
      | none => rw [ih]; exact useState_children tag init s n
    | useStateWithId mid tag init =>
      cases hp : (useStateWithId mid tag init s n).panic with
      | some p => simpa using useStateWithId_children mid tag init s n
      | none => rw [ih]; exact useStateWithId_children mid tag init s n

theorem runHooks_next (prog : List HookCall) (s : Scope) (n : Nat) :
    n ≤ (runHooks prog s n).2.1 := by
  induction prog generalizing s n with
  | nil => simp [runHooks]
  | cons h rest ih =>
    cases h with
    | useState tag init =>
      simp only [runHooks]
      cases hp : (useState tag init s n).panic with
      | some p => simp only [hp]; exact (useState_next tag init s n).1
      | none =>
        simp only [hp]
        exact le_trans (useState_next tag init s n).1 (ih _ _)
    | useStateWithId mid tag init =>
      simp only [runHooks]
      cases hp : (useStateWithId mid tag init s n).panic with
      | some p => simp only [hp]; rw [useStateWithId_next]
      | none =>
        simp only [hp]
        rw [useStateWithId_next]
        exact ih _ _

/-! ## Freshness bookkeeping for the interpreter -/

/-- Every element of `l` is either in `base` or lies in the id range
freshly generated between counter values `n` and `n'`. -/
def FreshOk (n n' : Nat) (base : List Nat) (l : List Nat) : Prop :=
  ∀ x ∈ l, x ∈ base ∨ (n ≤ x ∧ x < n')

theorem freshok_nil (n n' : Nat) (base : List Nat) : FreshOk n n' base [] := by
  intro x hx; cases hx

theorem freshok_mono (n0 n n' n1 : Nat) (base base' l : List Nat)
    (hb : ∀ x ∈ base, x ∈ base') (h0 : n0 ≤ n) (h1 : n' ≤ n1)
    (h : FreshOk n n' base l) : FreshOk n0 n1 base' l := by
  intro x hx
  rcases h x hx with h2 | ⟨h2, h3⟩
  · exact Or.inl (hb x h2)
  · exact Or.inr ⟨le_trans h0 h2, lt_of_lt_of_le h3 h1⟩

theorem freshok_append (n n' : Nat) (base l1 l2 : List Nat)
    (h1 : FreshOk n n' base l1) (h2 : FreshOk n n' base l2) :
    FreshOk n n' base (l1 ++ l2) := by
  intro x hx
  rcases List.mem_append.mp hx with h | h
  · exact h1 x h
  · exact h2 x h

theorem freshok_chain (n1 n2 n3 : Nat) (base base2 l : List Nat)
    (h12 : n1 ≤ n2) (h : FreshOk n2 n3 base2 l)
    (hb : ∀ x ∈ base2, x ∈ base ∨ (n1 ≤ x ∧ x < n2)) (h23 : n2 ≤ n3) :
    FreshOk n1 n3 base l := by
  intro x hx
  rcases h x hx with h2 | ⟨h2, h3⟩
  · rcases hb x h2 with h4 | ⟨h4, h5⟩
    · exact Or.inl h4
    · exact Or.inr ⟨h4, lt_of_lt_of_le h5 h23⟩
  · exact Or.inr ⟨le_trans h12 h2, h3⟩

/-- The bounds that one interpreter step guarantees: the counter only
grows, the root scope keeps its id, every logged compose call is an id
from `cb` or freshly generated, and every id in the resulting children
forest is an id from the prior children forest or freshly generated. -/
def StepOk (s : Scope) (n : Nat) (cb : List Nat) (r : Res) : Prop :=
  n ≤ r.next ∧ r.scope.id = s.id ∧ FreshOk n r.next cb r.calls ∧
    FreshOk n r.next (forestIds s.children) (forestIds r.scope.children)

theorem freshok_cons (n n' : Nat) (base l : List Nat) (a : Nat) (ha : a ∈ base)
    (h : FreshOk n n' base l) : FreshOk n n' base (a :: l) := by
  intro x hx
  rcases List.mem_cons.mp hx with h1 | h1
  · exact Or.inl (h1 ▸ ha)
  · exact h x h1

theorem freshok_sub (n n' : Nat) (base l : List Nat) (h : ∀ x ∈ l, x ∈ base) :
    FreshOk n n' base l :=
  fun x hx => Or.inl (h x hx)

theorem mem_treeIds_self (s : Scope) : s.id ∈ treeIds s := by
  rw [treeIds_def]; exact List.mem_cons_self _ _

theorem forest_sub_tree (s : Scope) : ∀ x ∈ forestIds s.children, x ∈ treeIds s := by
  rw [treeIds_def]; intro x hx; exact List.mem_cons_of_mem _ hx

theorem freshok_fresh (n n' : Nat) (base l : List Nat) (h : ∀ x ∈ l, n ≤ x ∧ x < n') :
    FreshOk n n' base l :=
  fun x hx => Or.inr (h x hx)

theorem freshok_cons2 (n n' : Nat) (base l : List Nat) (a : Nat)
    (ha : a ∈ base ∨ (n ≤ a ∧ a < n')) (h : FreshOk n n' base l) :
    FreshOk n n' base (a :: l) := by
  intro x hx
  rcases List.mem_cons.mp hx with h1 | h1
  · exact h1 ▸ ha
  · exact h x h1

theorem forestIds_cons (t : Scope) (rest : List Scope) :
    forestIds (t :: rest) = treeIds t ++ forestIds rest := rfl

/-! ## Branch equations for `recomposeScope` -/

theorem recomposeScope_panic (fuel : Nat) (c : Comp) (s : Scope) (n : Nat)
    (s2 : Scope) (n2 : Nat) (cs2 : List Nat) (p : String)
    (hb : composeBody fuel c (composeInput s) n = ⟨s2, n2, cs2, some p⟩) :
    recomposeScope (fuel + 1) c s n = ⟨s2, n2, s.id :: cs2, some p⟩ := by
  simp [recomposeScope, hb]

theorem recomposeScope_ignore (fuel : Nat) (c : Comp) (s : Scope) (n : Nat)
    (s2 : Scope) (n2 : Nat) (cs2 : List Nat)
    (hb : composeBody fuel c (composeInput s) n = ⟨s2, n2, cs2, none⟩)
    (hic : c.ignoreChildren = true) :
    recomposeScope (fuel + 1) c s n =
      ⟨s2.withStates (demoteChanged s2.states), n2, s.id :: cs2, none⟩ := by
  simp [recomposeScope, hb, hic]

theorem recomposeScope_child_cons (fuel : Nat) (c : Comp) (s : Scope) (n : Nat)
    (s2 : Scope) (n2 : Nat) (cs2 : List Nat) (t : Scope) (rest : List Scope)
    (hb : composeBody fuel c (composeInput s) n = ⟨s2, n2, cs2, none⟩)
    (hic : c.ignoreChildren = false) (hch : s2.children = t :: rest) :
    recomposeScope (fuel + 1) c s n =
      ⟨(s2.withStates (demoteChanged s2.states)).withChildren
          ((recomposeScope fuel c.childOf (t.withComp c.childOf) n2).scope :: rest),
        (recomposeScope fuel c.childOf (t.withComp c.childOf) n2).next,
        s.id :: (cs2 ++ (recomposeScope fuel c.childOf (t.withComp c.childOf) n2).calls),
        (recomposeScope fuel c.childOf (t.withComp c.childOf) n2).panic⟩ := by
  simp [recomposeScope, hb, hic, hch]

theorem recomposeScope_child_nil_panic (fuel : Nat) (c : Comp) (s : Scope) (n : Nat)
    (s2 : Scope) (n2 : Nat) (cs2 : List Nat) (t2 : Scope) (n3 : Nat) (cs3 : List Nat)
    (p : String)
    (hb : composeBody fuel c (composeInput s) n = ⟨s2, n2, cs2, none⟩)
    (hic : c.ignoreChildren = false) (hch : s2.children = [])
    (hr : recomposeScope fuel c.childOf (Scope.new n2 0 c.childOf) (n2 + 1) =
      ⟨t2, n3, cs3, some p⟩) :
    recomposeScope (fuel + 1) c s n =
      ⟨s2.withStates (demoteChanged s2.states), n3, s.id :: (cs2 ++ cs3), some p⟩ := by
  simp [recomposeScope, hb, hic, hch, hr]

theorem recomposeScope_child_nil_ok (fuel : Nat) (c : Comp) (s : Scope) (n : Nat)
    (s2 : Scope) (n2 : Nat) (cs2 : List Nat) (t2 : Scope) (n3 : Nat) (cs3 : List Nat)
    (hb : composeBody fuel c (composeInput s) n = ⟨s2, n2, cs2, none⟩)
    (hic : c.ignoreChildren = false) (hch : s2.children = [])
    (hr : recomposeScope fuel c.childOf (Scope.new n2 0 c.childOf) (n2 + 1) =
      ⟨t2, n3, cs3, none⟩) :
    recomposeScope (fuel + 1) c s n =
      ⟨(s2.withStates (demoteChanged s2.states)).withChildren [t2], n3,
        s.id :: (cs2 ++ cs3), none⟩ := by
  simp [recomposeScope, hb, hic, hch, hr]

/-! ## Branch equations for `vecBody`, `dynBody` and `vecLoop` -/

theorem vecBody_hook_panic (fuel : Nat) (items : List (Nat × Comp)) (s : Scope) (n : Nat)
    (s1 : Scope) (n1 : Nat) (p1 : Option String)
    (hu : useState .tMap (.map []) s n = ⟨none, s1, n1, p1⟩) :
    vecBody (fuel + 1) items s n = ⟨s1, n1, [], p1⟩ := by
  simp [vecBody, hu]

theorem vecBody_dup (fuel : Nat) (items : List (Nat × Comp)) (s : Scope) (n : Nat)
    (slot : DynState) (s1 : Scope) (n1 : Nat) (p1 : Option String)
    (hu : useState .tMap (.map []) s n = ⟨some slot, s1, n1, p1⟩)
    (hdup : hasDuplicate (items.map Prod.fst) = true) :
    vecBody (fuel + 1) items s n = ⟨s1, n1, [], some "Duplicate key found"⟩ := by
  simp [vecBody, hu, hdup]

theorem vecBody_loop_panic (fuel : Nat) (items : List (Nat × Comp)) (s : Scope) (n : Nat)
    (slot : DynState) (s1 : Scope) (n1 : Nat) (p1 : Option String)
    (s2 : Scope) (n2 : Nat) (cs : List Nat) (p : String) (m2 : List (Nat × Nat))
    (hu : useState .tMap (.map []) s n = ⟨some slot, s1, n1, p1⟩)
    (hdup : hasDuplicate (items.map Prod.fst) = false)
    (hv : vecLoop fuel items 0 (mapOfVal slot.value) (mapOfVal slot.value) s1 n1 =
      (⟨s2, n2, cs, some p⟩, m2)) :
    vecBody (fuel + 1) items s n = ⟨s2, n2, cs, some p⟩ := by
  simp [vecBody, hu, hdup, hv]

theorem vecBody_full (fuel : Nat) (items : List (Nat × Comp)) (s : Scope) (n : Nat)
    (slot : DynState) (s1 : Scope) (n1 : Nat) (p1 : Option String)
    (s2 : Scope) (n2 : Nat) (cs : List Nat) (m2 m3 : List (Nat × Nat)) (ch3 : List Scope)
    (s4 : Scope) (p4 : Option String)
    (hu : useState .tMap (.map []) s n = ⟨some slot, s1, n1, p1⟩)
    (hdup : hasDuplicate (items.map Prod.fst) = false)
    (hv : vecLoop fuel items 0 (mapOfVal slot.value) (mapOfVal slot.value) s1 n1 =
      (⟨s2, n2, cs, none⟩, m2))
    (hm : vecMark m2 (items.map Prod.fst) m2 s2.children = (m3, ch3))
    (hs : setStateById slot.id (.map m3) false (s2.withChildren ch3) = (s4, p4)) :
    vecBody (fuel + 1) items s n = ⟨s4, n2, cs, p4⟩ := by
  simp [vecBody, hu, hdup, hv, hm, hs]

theorem dynBody_hook_panic (fuel tag : Nat) (inner : Comp) (s : Scope) (n : Nat)
    (s1 : Scope) (n1 : Nat) (p1 : Option String)
    (hu : useState .tTypeId (.typeId tag) s n = ⟨none, s1, n1, p1⟩) :
    dynBody (fuel + 1) tag inner s n = ⟨s1, n1, [], p1⟩ := by
  simp [dynBody, hu]

theorem dynBody_match (fuel tag : Nat) (inner : Comp) (s : Scope) (n : Nat)
    (slot : DynState) (s1 : Scope) (n1 : Nat) (p1 : Option String)
    (t : Scope) (rest : List Scope)
    (hu : useState .tTypeId (.typeId tag) s n = ⟨some slot, s1, n1, p1⟩)
    (hch : s1.children = t :: rest) (htag : slot.value = Val.typeId tag) :
    dynBody (fuel + 1) tag inner s n =
      ⟨s1.withChildren ((recomposeScope fuel inner (t.withComp inner) n1).scope :: rest),
        (recomposeScope fuel inner (t.withComp inner) n1).next,
        (recomposeScope fuel inner (t.withComp inner) n1).calls,
        (recomposeScope fuel inner (t.withComp inner) n1).panic⟩ := by
  simp [dynBody, hu, hch, htag]

theorem dynBody_remount (fuel tag : Nat) (inner : Comp) (s : Scope) (n : Nat)
    (slot : DynState) (s1 : Scope) (n1 : Nat) (p1 : Option String)
    (t : Scope) (rest : List Scope)
    (hu : useState .tTypeId (.typeId tag) s n = ⟨some slot, s1, n1, p1⟩)
    (hch : s1.children = t :: rest) (htag : slot.value ≠ Val.typeId tag) :
    dynBody (fuel + 1) tag inner s n =
      dynCreateNew fuel tag inner slot.id
        (s1.withChildren (t.withWillDecompose true :: rest)) n1 := by
  simp [dynBody, hu, hch, htag]

theorem dynBody_nochild (fuel tag : Nat) (inner : Comp) (s : Scope) (n : Nat)
    (slot : DynState) (s1 : Scope) (n1 : Nat) (p1 : Option String)
    (hu : useState .tTypeId (.typeId tag) s n = ⟨some slot, s1, n1, p1⟩)
    (hch : s1.children = []) :
    dynBody (fuel + 1) tag inner s n = dynCreateNew fuel tag inner slot.id s1 n1 := by
  simp [dynBody, hu, hch]

theorem vecLoop_nil (fuel : Nat) (idx : Nat) (om mm : List (Nat × Nat)) (s : Scope)
    (n : Nat) : vecLoop (fuel + 1) [] idx om mm s n = (⟨s, n, [], none⟩, mm) := by
  simp [vecLoop]

theorem vecLoop_found_panic (fuel : Nat) (key : Nat) (kc : Comp)
    (rest : List (Nat × Comp)) (idx : Nat) (om mm : List (Nat × Nat)) (s : Scope) (n : Nat)
    (t t2 : Scope) (n2 : Nat) (cs2 : List Nat) (p : String)
    (hlk : (mapLookup key om).bind (fun sid => findChild sid s.children) = some t)
    (hr : recomposeScope fuel kc ((t.withIndex idx).withComp kc) n = ⟨t2, n2, cs2, some p⟩) :
    vecLoop (fuel + 1) ((key, kc) :: rest) idx om mm s n =
      (⟨s.withChildren (replaceFirstChild t.id t2 s.children), n2, cs2, some p⟩, mm) := by
  simp [vecLoop, hlk, hr]

theorem vecLoop_found_ok (fuel : Nat) (key : Nat) (kc : Comp)
    (rest : List (Nat × Comp)) (idx : Nat) (om mm : List (Nat × Nat)) (s : Scope) (n : Nat)
    (t t2 : Scope) (n2 : Nat) (cs2 : List Nat)
    (s3 : Scope) (n3 : Nat) (cs3 : List Nat) (p3 : Option String) (m3 : List (Nat × Nat))
    (hlk : (mapLookup key om).bind (fun sid => findChild sid s.children) = some t)
    (hr : recomposeScope fuel kc ((t.withIndex idx).withComp kc) n = ⟨t2, n2, cs2, none⟩)
    (hv : vecLoop fuel rest (idx + 1) om mm
      (s.withChildren (replaceFirstChild t.id t2 s.children)) n2 = (⟨s3, n3, cs3, p3⟩, m3)) :
    vecLoop (fuel + 1) ((key, kc) :: rest) idx om mm s n =
      (⟨s3, n3, cs2 ++ cs3, p3⟩, m3) := by
  simp [vecLoop, hlk, hr, hv]

theorem vecLoop_new_panic (fuel : Nat) (key : Nat) (kc : Comp)
    (rest : List (Nat × Comp)) (idx : Nat) (om mm : List (Nat × Nat)) (s : Scope) (n : Nat)
    (t2 : Scope) (n2 : Nat) (cs2 : List Nat) (p : String)
    (hlk : (mapLookup key om).bind (fun sid => findChild sid s.children) = none)
    (hr : recomposeScope fuel kc (Scope.new n idx kc) (n + 1) = ⟨t2, n2, cs2, some p⟩) :
    vecLoop (fuel + 1) ((key, kc) :: rest) idx om mm s n = (⟨s, n2, cs2, some p⟩, mm) := by
  simp [vecLoop, hlk, hr]

theorem vecLoop_new_ok (fuel : Nat) (key : Nat) (kc : Comp)
    (rest : List (Nat × Comp)) (idx : Nat) (om mm : List (Nat × Nat)) (s : Scope) (n : Nat)
    (t2 : Scope) (n2 : Nat) (cs2 : List Nat)
    (s3 : Scope) (n3 : Nat) (cs3 : List Nat) (p3 : Option String) (m3 : List (Nat × Nat))
    (hlk : (mapLookup key om).bind (fun sid => findChild sid s.children) = none)
    (hr : recomposeScope fuel kc (Scope.new n idx kc) (n + 1) = ⟨t2, n2, cs2, none⟩)
    (hv : vecLoop fuel rest (idx + 1) om (mapInsert key n mm)
      (s.withChildren (s.children ++ [t2])) n2 = (⟨s3, n3, cs3, p3⟩, m3)) :
    vecLoop (fuel + 1) ((key, kc) :: rest) idx om mm s n =
      (⟨s3, n3, cs2 ++ cs3, p3⟩, m3) := by
  simp [vecLoop, hlk, hr, hv]

theorem dynCreateNew_panic (fuel tag : Nat) (inner : Comp) (hid : StateId) (s : Scope)
    (n : Nat) (t2 : Scope) (n2 : Nat) (cs2 : List Nat) (p : String)
    (hr : recomposeScope fuel inner (Scope.new n 0 inner) (n + 1) = ⟨t2, n2, cs2, some p⟩) :
    dynCreateNew (fuel + 1) tag inner hid s n = ⟨s, n2, cs2, some p⟩ := by
  simp [dynCreateNew, hr]

theorem dynCreateNew_ok (fuel tag : Nat) (inner : Comp) (hid : StateId) (s : Scope)
    (n : Nat) (t2 : Scope) (n2 : Nat) (cs2 : List Nat) (s3 : Scope) (p3 : Option String)
    (hr : recomposeScope fuel inner (Scope.new n 0 inner) (n + 1) = ⟨t2, n2, cs2, none⟩)
    (hs : setStateById hid (.typeId tag) true (s.withChildren (s.children ++ [t2])) =
      (s3, p3)) :
    dynCreateNew (fuel + 1) tag inner hid s n = ⟨s3, n2, cs2, p3⟩ := by
  simp [dynCreateNew, hr, hs]

set_option maxHeartbeats 1000000 in
/-- Bounds respected by every interpreter function: counters grow,
root ids are stable, and compose calls and subtree ids are either
pre-existing or freshly generated. -/
theorem interpBounds : ∀ fuel : Nat,
    (∀ c s n, StepOk s n (treeIds s) (recomposeScope fuel c s n)) ∧
    (∀ c s n, StepOk s n (forestIds s.children) (composeBody fuel c s n)) ∧
    (∀ items s n, StepOk s n (forestIds s.children) (vecBody fuel items s n)) ∧
    (∀ tag inner s n, StepOk s n (forestIds s.children) (dynBody fuel tag inner s n)) ∧
    (∀ tag inner hid s n,
      StepOk s n (forestIds s.children) (dynCreateNew fuel tag inner hid s n)) ∧
    (∀ items idx om mm s n,
      StepOk s n (forestIds s.children) (vecLoop fuel items idx om mm s n).1) := by
  intro fuel
  induction fuel with
  | zero =>
    refine ⟨?_, ?_, ?_, ?_, ?_, ?_⟩ <;> intros <;> unfold StepOk <;>
      refine ⟨?_, ?_, ?_, ?_⟩ <;>
        simp only [recomposeScope, composeBody, vecBody, dynBody, dynCreateNew, vecLoop] <;>
        first
          | exact le_refl _
          | rfl
          | exact freshok_nil _ _ _
          | exact fun x hx => Or.inl hx
  | succ fuel ih =>
    obtain ⟨ihR, ihB, ihV, ihD, ihDC, ihVL⟩ := ih
    refine ⟨?_, ?_, ?_, ?_, ?_, ?_⟩
    · -- recomposeScope (fuel+1)
      intro c s n
      have hB := ihB c (composeInput s) n
      cases hb : composeBody fuel c (composeInput s) n with
      | mk s2 n2 cs2 p2 =>
        rw [hb] at hB
        simp only [StepOk] at hB
        obtain ⟨hBn, hBid, hBcalls, hBch⟩ := hB
        simp only [composeInput_children] at hBcalls hBch
        simp only [composeInput_id] at hBid
        have hcalls2 : FreshOk n n2 (treeIds s) cs2 :=
          freshok_mono n n n2 n2 _ _ _ (forest_sub_tree s) (le_refl n) (le_refl n2) hBcalls
        cases p2 with
        | some p =>
          rw [recomposeScope_panic fuel c s n s2 n2 cs2 p hb]
          exact ⟨hBn, hBid, freshok_cons _ _ _ _ _ (mem_treeIds_self s) hcalls2, hBch⟩
        | none =>
          cases hic : c.ignoreChildren with
          | true =>
            rw [recomposeScope_ignore fuel c s n s2 n2 cs2 hb hic]
            refine ⟨hBn, by simp [hBid], freshok_cons _ _ _ _ _ (mem_treeIds_self s) hcalls2,
              ?_⟩
            simpa using hBch
          | false =>
            cases hch : s2.children with
            | cons t rest =>
              rw [recomposeScope_child_cons fuel c s n s2 n2 cs2 t rest hb hic hch]
              cases hr : recomposeScope fuel c.childOf (t.withComp c.childOf) n2 with
              | mk t2 n3 cs3 p3 =>
                have hR := ihR c.childOf (t.withComp c.childOf) n2
                rw [hr] at hR
                simp only [StepOk] at hR
                obtain ⟨hRn, hRid, hRcalls, hRch⟩ := hR
                simp only [treeIds_withComp] at hRcalls
                simp only [withComp_children] at hRch
                simp only [withComp_id] at hRid
                have hBcht : ∀ x ∈ treeIds t, x ∈ forestIds s.children ∨ (n ≤ x ∧ x < n2) := by
                  intro x hx
                  refine hBch x ?_
                  rw [hch]
                  exact mem_forestIds_of_mem_treeIds t _ (List.mem_cons_self _ _) x hx
                have hBchr : ∀ x ∈ forestIds rest,
                    x ∈ forestIds s.children ∨ (n ≤ x ∧ x < n2) := by
                  intro x hx
                  refine hBch x ?_
                  rw [hch, forestIds_cons]
                  exact List.mem_append.mpr (Or.inr hx)
                have hn3 : n ≤ n3 := le_trans hBn hRn
                have hcalls3 : FreshOk n n3 (forestIds s.children) cs3 := by
                  refine freshok_chain n n2 n3 _ _ _ hBn hRcalls ?_ hRn
                  intro x hx
                  exact hBcht x hx
                have hcht2 : FreshOk n n3 (forestIds s.children) (treeIds t2) := by
                  rw [treeIds_def, hRid]
                  refine freshok_cons2 _ _ _ _ _ ?_ ?_
                  · rcases hBcht t.id (mem_treeIds_self t) with h1 | h1
                    · exact Or.inl h1
                    · exact Or.inr ⟨h1.1, lt_of_lt_of_le h1.2 hRn⟩
                  · refine freshok_chain n n2 n3 _ _ _ hBn hRch ?_ hRn
                    intro x hx
                    exact hBcht x (forest_sub_tree t x hx)
                refine ⟨hn3, by simp [hBid], ?_, ?_⟩
                · refine freshok_cons _ _ _ _ _ (mem_treeIds_self s) ?_
                  refine freshok_append _ _ _ _ _ ?_ ?_
                  · exact freshok_mono n n n2 n3 _ _ _ (fun x hx => hx) (le_refl n) hRn
                      hcalls2
                  · exact freshok_mono n n n3 n3 _ _ _ (forest_sub_tree s) (le_refl n)
                      (le_refl n3) hcalls3
                · simp only [withChildren_children, forestIds_cons]
                  refine freshok_append _ _ _ _ _ hcht2 ?_
                  exact freshok_mono n n n2 n3 _ _ _ (fun x hx => hx) (le_refl n) hRn
                    (fun x hx => hBchr x hx)
            | nil =>
              cases hr : recomposeScope fuel c.childOf (Scope.new n2 0 c.childOf) (n2 + 1) with
              | mk t2 n3 cs3 p3 =>
                have hR := ihR c.childOf (Scope.new n2 0 c.childOf) (n2 + 1)
                rw [hr] at hR
                simp only [StepOk] at hR
                obtain ⟨hRn, hRid, hRcalls, hRch⟩ := hR
                have hn3 : n ≤ n3 := le_trans hBn (le_trans (Nat.le_succ n2) hRn)
                have hn23 : n2 < n3 := lt_of_lt_of_le (Nat.lt_succ_self n2) hRn
                have hcalls3 : FreshOk n n3 (treeIds s) cs3 := by
                  refine freshok_chain n (n2 + 1) n3 _ _ _ (le_trans hBn (Nat.le_succ n2))
                    hRcalls ?_ hRn
                  intro x hx
                  simp only [Scope.new, treeIds_def, children_mk, forestIds, id_mk,
                    List.mem_singleton] at hx
                  exact Or.inr (by omega)
                have hcallsAll : FreshOk n n3 (treeIds s) (Scope.id s :: (cs2 ++ cs3)) := by
                  refine freshok_cons _ _ _ _ _ (mem_treeIds_self s) ?_
                  refine freshok_append _ _ _ _ _ ?_ hcalls3
                  exact freshok_mono n n n2 n3 _ _ _ (fun x hx => hx) (le_refl n)
                    (le_trans (Nat.le_succ n2) hRn) hcalls2
                have htid : t2.id = n2 := by
                  rw [hRid]; simp [Scope.new]
                cases p3 with
                | some p =>
                  rw [recomposeScope_child_nil_panic fuel c s n s2 n2 cs2 t2 n3 cs3 p hb hic
                    hch hr]
                  refine ⟨hn3, by simp [hBid], hcallsAll, ?_⟩
                  simp only [withStates_children, hch, forestIds]
                  exact freshok_nil _ _ _
                | none =>
                  rw [recomposeScope_child_nil_ok fuel c s n s2 n2 cs2 t2 n3 cs3 hb hic hch hr]
                  refine ⟨hn3, by simp [hBid], hcallsAll, ?_⟩
                  simp only [withChildren_children, forestIds_cons, forestIds,
                    List.append_nil, treeIds_def]
                  refine freshok_cons2 _ _ _ _ _ ?_ ?_
                  · exact Or.inr ⟨htid ▸ hBn, htid ▸ hn23⟩
                  · refine freshok_chain n (n2 + 1) n3 _ _ _ (le_trans hBn (Nat.le_succ n2))
                      hRch ?_ hRn
                    intro x hx
                    simp only [Scope.new, children_mk, forestIds] at hx
                    cases hx
    · -- composeBody (fuel+1)
      intro c s n
      cases c with
      | empty =>
        simp only [composeBody]
        exact ⟨le_refl _, rfl, freshok_nil _ _ _, freshok_sub _ _ _ _ (fun x hx => hx)⟩
      | leaf prog child =>
        simp only [composeBody]
        refine ⟨runHooks_next prog s n, runHooks_id prog s n, freshok_nil _ _ _, ?_⟩
        rw [runHooks_children prog s n]
        exact freshok_sub _ _ _ _ (fun x hx => hx)
      | vecC items => simpa only [composeBody] using ihV items s n
      | dynC tag inner => simpa only [composeBody] using ihD tag inner s n
      | keyedC key tag inner => simpa only [composeBody] using ihD tag inner s n
    · -- vecBody (fuel+1)
      intro items s n
      cases hu : useState .tMap (.map []) s n with
      | mk slot? s1 n1 p1 =>
        have huid : s1.id = s.id := by
          have h := useState_id .tMap (.map []) s n
          rw [hu] at h
          exact h
        have huch : s1.children = s.children := by
          have h := useState_children .tMap (.map []) s n
          rw [hu] at h
          exact h
        have hun : n ≤ n1 := by
          have h := (useState_next .tMap (.map []) s n).1
          rw [hu] at h
          exact h
        have hbase1 : FreshOk n n1 (forestIds s.children) (forestIds s1.children) := by
          rw [huch]
          exact freshok_sub _ _ _ _ (fun x hx => hx)
        cases slot? with
        | none =>
          rw [vecBody_hook_panic fuel items s n s1 n1 p1 hu]
          exact ⟨hun, huid, freshok_nil _ _ _, hbase1⟩
        | some slot =>
          cases hdup : hasDuplicate (items.map Prod.fst) with
          | true =>
            rw [vecBody_dup fuel items s n slot s1 n1 p1 hu hdup]
            exact ⟨hun, huid, freshok_nil _ _ _, hbase1⟩
          | false =>
            have hV := ihVL items 0 (mapOfVal slot.value) (mapOfVal slot.value) s1 n1
            cases hv : vecLoop fuel items 0 (mapOfVal slot.value) (mapOfVal slot.value)
                s1 n1 with
            | mk r m2 =>
              cases r with
              | mk s2 n2 cs p2 =>
                rw [hv] at hV
                simp only [StepOk] at hV
                obtain ⟨hVn, hVid, hVcalls, hVch⟩ := hV
                rw [huch] at hVcalls hVch
                have hn2 : n ≤ n2 := le_trans hun hVn
                have hcalls : FreshOk n n2 (forestIds s.children) cs :=
                  freshok_mono n n1 n2 n2 _ _ _ (fun x hx => hx) hun (le_refl n2) hVcalls
                have hch2 : FreshOk n n2 (forestIds s.children) (forestIds s2.children) :=
                  freshok_mono n n1 n2 n2 _ _ _ (fun x hx => hx) hun (le_refl n2) hVch
                cases p2 with
                | some p =>
                  rw [vecBody_loop_panic fuel items s n slot s1 n1 p1 s2 n2 cs p m2 hu
                    hdup hv]
                  exact ⟨hn2, hVid.trans huid, hcalls, hch2⟩
                | none =>
                  cases hm : vecMark m2 (items.map Prod.fst) m2 s2.children with
                  | mk m3 ch3 =>
                    have hchm : forestIds ch3 = forestIds s2.children := by
                      have h := forestIds_vecMark m2 (items.map Prod.fst) m2 s2.children
                      rw [hm] at h
                      exact h
                    cases hs : setStateById slot.id (.map m3) false
                        (s2.withChildren ch3) with
                    | mk s4 p4 =>
                      have hs4id : s4.id = s2.id := by
                        have h := setStateById_id slot.id (.map m3) false
                          (s2.withChildren ch3)
                        rw [hs] at h
                        simpa using h
                      have hs4ch : s4.children = ch3 := by
                        have h := setStateById_children slot.id (.map m3) false
                          (s2.withChildren ch3)
                        rw [hs] at h
                        simpa using h
                      have hch4 : FreshOk n n2 (forestIds s.children)
                          (forestIds s4.children) := by
                        rw [hs4ch, hchm]
                        exact hch2
                      rw [vecBody_full fuel items s n slot s1 n1 p1 s2 n2 cs m2 m3 ch3 s4 p4
                        hu hdup hv hm hs]
                      exact ⟨hn2, by rw [hs4id, hVid, huid], hcalls, hch4⟩
    · -- dynBody (fuel+1)
      intro tag inner s n
      cases hu : useState .tTypeId (.typeId tag) s n with
      | mk slot? s1 n1 p1 =>
        have huid : s1.id = s.id := by
          have h := useState_id .tTypeId (.typeId tag) s n
          rw [hu] at h
          exact h
        have huch : s1.children = s.children := by
          have h := useState_children .tTypeId (.typeId tag) s n
          rw [hu] at h
          exact h
        have hun : n ≤ n1 := by
          have h := (useState_next .tTypeId (.typeId tag) s n).1
          rw [hu] at h
          exact h
        have hbase1 : FreshOk n n1 (forestIds s.children) (forestIds s1.children) := by
          rw [huch]
          exact freshok_sub _ _ _ _ (fun x hx => hx)
        cases slot? with
        | none =>
          rw [dynBody_hook_panic fuel tag inner s n s1 n1 p1 hu]
          exact ⟨hun, huid, freshok_nil _ _ _, hbase1⟩
        | some slot =>
          cases hch1 : s1.children with
          | cons t rest =>
            have htmem : ∀ x ∈ treeIds t, x ∈ forestIds s.children := by
              intro x hx
              rw [← huch, hch1]
              exact mem_forestIds_of_mem_treeIds t _ (List.mem_cons_self _ _) x hx
            have hrmem : ∀ x ∈ forestIds rest, x ∈ forestIds s.children := by
              intro x hx
              rw [← huch, hch1, forestIds_cons]
              exact List.mem_append.mpr (Or.inr hx)
            by_cases htag : slot.value = Val.typeId tag
            · rw [dynBody_match fuel tag inner s n slot s1 n1 p1 t rest hu hch1 htag]
              cases hr : recomposeScope fuel inner (t.withComp inner) n1 with
              | mk t2 n2 cs2 p2 =>
                have hR := ihR inner (t.withComp inner) n1
                rw [hr] at hR
                simp only [StepOk] at hR
                obtain ⟨hRn, hRid, hRcalls, hRch⟩ := hR
                simp only [treeIds_withComp] at hRcalls
                simp only [withComp_children] at hRch
                simp only [withComp_id] at hRid
                have hn2 : n ≤ n2 := le_trans hun hRn
                have hcalls : FreshOk n n2 (forestIds s.children) cs2 := by
                  refine freshok_chain n n1 n2 _ _ _ hun hRcalls ?_ hRn
                  intro x hx
                  exact Or.inl (htmem x hx)
                have hch2 : FreshOk n n2 (forestIds s.children)
                    (forestIds (t2 :: rest)) := by
                  rw [forestIds_cons]
                  refine freshok_append _ _ _ _ _ ?_ ?_
                  · rw [treeIds_def, hRid]
                    refine freshok_cons _ _ _ _ _ (htmem t.id (mem_treeIds_self t)) ?_
                    refine freshok_chain n n1 n2 _ _ _ hun hRch ?_ hRn
                    intro x hx
                    exact Or.inl (htmem x (forest_sub_tree t x hx))
                  · exact freshok_sub _ _ _ _ hrmem
                refine ⟨hn2, by simp [huid], hcalls, ?_⟩
                simpa using hch2
            · rw [dynBody_remount fuel tag inner s n slot s1 n1 p1 t rest hu hch1 htag]
              have hDC := ihDC tag inner slot.id
                (s1.withChildren (t.withWillDecompose true :: rest)) n1
              simp only [StepOk, withChildren_children, withChildren_id, forestIds_cons,
                treeIds_withWillDecompose] at hDC
              obtain ⟨hDn, hDid, hDcalls, hDch⟩ := hDC
              have hball : ∀ x ∈ treeIds t ++ forestIds rest, x ∈ forestIds s.children := by
                intro x hx
                rcases List.mem_append.mp hx with h | h
                · exact htmem x h
                · exact hrmem x h
              refine ⟨le_trans hun hDn, by rw [hDid, huid], ?_, ?_⟩
              · refine freshok_chain n n1 _ _ _ _ hun hDcalls ?_ hDn
                intro x hx
                exact Or.inl (hball x hx)
              · refine freshok_chain n n1 _ _ _ _ hun hDch ?_ hDn
                intro x hx
                exact Or.inl (hball x hx)
          | nil =>
            rw [dynBody_nochild fuel tag inner s n slot s1 n1 p1 hu hch1]
            have hDC := ihDC tag inner slot.id s1 n1
            simp only [StepOk] at hDC
            obtain ⟨hDn, hDid, hDcalls, hDch⟩ := hDC
            rw [huch] at hDcalls hDch
            refine ⟨le_trans hun hDn, by rw [hDid, huid], ?_, ?_⟩
            · exact freshok_mono n n1 _ _ _ _ _ (fun x hx => hx) hun (le_refl _) hDcalls
            · exact freshok_mono n n1 _ _ _ _ _ (fun x hx => hx) hun (le_refl _) hDch
    · -- dynCreateNew (fuel+1)
      intro tag inner hid s n
      cases hr : recomposeScope fuel inner (Scope.new n 0 inner) (n + 1) with
      | mk t2 n2 cs2 p2 =>
        have hR := ihR inner (Scope.new n 0 inner) (n + 1)
        rw [hr] at hR
        simp only [StepOk] at hR
        obtain ⟨hRn, hRid, hRcalls, hRch⟩ := hR
        have hn2 : n ≤ n2 := le_trans (Nat.le_succ n) hRn
        have hnn2 : n < n2 := lt_of_lt_of_le (Nat.lt_succ_self n) hRn
        have htid : t2.id = n := by
          rw [hRid]
          simp [Scope.new]
        have hcalls : FreshOk n n2 (forestIds s.children) cs2 := by
          refine freshok_chain n (n + 1) n2 _ _ _ (Nat.le_succ n) hRcalls ?_ hRn
          intro x hx
          simp only [Scope.new, treeIds_def, children_mk, forestIds, id_mk,
            List.mem_singleton] at hx
          exact Or.inr (by omega)
        have hcht2 : FreshOk n n2 (forestIds s.children) (treeIds t2) := by
          rw [treeIds_def]
          refine freshok_cons2 _ _ _ _ _ (Or.inr ⟨le_of_eq htid.symm, htid ▸ hnn2⟩) ?_
          refine freshok_chain n (n + 1) n2 _ _ _ (Nat.le_succ n) hRch ?_ hRn
          intro x hx
          simp only [Scope.new, children_mk, forestIds] at hx
          cases hx
        cases p2 with
        | some p =>
          rw [dynCreateNew_panic fuel tag inner hid s n t2 n2 cs2 p hr]
          exact ⟨hn2, rfl, hcalls, freshok_sub _ _ _ _ (fun x hx => hx)⟩
        | none =>
          cases hs : setStateById hid (.typeId tag) true
              (s.withChildren (s.children ++ [t2])) with
          | mk s3 p3 =>
            have hs3id : s3.id = s.id := by
              have h := setStateById_id hid (.typeId tag) true
                (s.withChildren (s.children ++ [t2]))
              rw [hs] at h
              simpa using h
            have hs3ch : s3.children = s.children ++ [t2] := by
              have h := setStateById_children hid (.typeId tag) true
                (s.withChildren (s.children ++ [t2]))
              rw [hs] at h
              simpa using h
            have hch3 : FreshOk n n2 (forestIds s.children) (forestIds s3.children) := by
              rw [hs3ch, forestIds_append]
              refine freshok_append _ _ _ _ _ (freshok_sub _ _ _ _ (fun x hx => hx)) ?_
              rw [forestIds_cons]
              intro x hx
              simp only [forestIds, List.append_nil] at hx
              exact hcht2 x hx
            rw [dynCreateNew_ok fuel tag inner hid s n t2 n2 cs2 s3 p3 hr hs]
            exact ⟨hn2, hs3id, hcalls, hch3⟩
    · -- vecLoop (fuel+1)
      intro items idx om mm s n
      cases items with
      | nil =>
        rw [vecLoop_nil fuel idx om mm s n]
        exact ⟨le_refl _, rfl, freshok_nil _ _ _, freshok_sub _ _ _ _ (fun x hx => hx)⟩
      | cons item rest =>
        obtain ⟨key, kc⟩ := item
        cases hlk : (mapLookup key om).bind (fun sid => findChild sid s.children) with
        | some t =>
          have ht : t ∈ s.children := by
            rcases Option.bind_eq_some.mp hlk with ⟨sid, h1, h2⟩
            exact findChild_mem sid _ t h2
          have htmem : ∀ x ∈ treeIds t, x ∈ forestIds s.children :=
            mem_forestIds_of_mem_treeIds t _ ht
          cases hr : recomposeScope fuel kc ((t.withIndex idx).withComp kc) n with
          | mk t2 n2 cs2 p2 =>
            have hR := ihR kc ((t.withIndex idx).withComp kc) n
            rw [hr] at hR
            simp only [StepOk] at hR
            obtain ⟨hRn, hRid, hRcalls, hRch⟩ := hR
            simp only [treeIds_withComp, treeIds_withIndex] at hRcalls
            simp only [withComp_children, withIndex_children] at hRch
            simp only [withComp_id, withIndex_id] at hRid
            have hcalls2 : FreshOk n n2 (forestIds s.children) cs2 :=
              freshok_mono n n n2 n2 _ _ _ htmem (le_refl n) (le_refl n2) hRcalls
            have hrep : FreshOk n n2 (forestIds s.children)
                (forestIds (replaceFirstChild t.id t2 s.children)) := by
              intro x hx
              rcases forestIds_replaceFirstChild t.id t2 s.children x hx with h | h
              · exact Or.inl h
              · rw [treeIds_def, hRid] at h
                rcases List.mem_cons.mp h with h2 | h2
                · exact Or.inl (h2 ▸ htmem t.id (mem_treeIds_self t))
                · rcases hRch x h2 with h3 | h3
                  · exact Or.inl (htmem x (forest_sub_tree t x h3))
                  · exact Or.inr h3
            cases p2 with
            | some p =>
              rw [vecLoop_found_panic fuel key kc rest idx om mm s n t t2 n2 cs2 p hlk hr]
              exact ⟨hRn, by simp, hcalls2, by simpa using hrep⟩
            | none =>
              cases hv : vecLoop fuel rest (idx + 1) om mm
                  (s.withChildren (replaceFirstChild t.id t2 s.children)) n2 with
              | mk r m3 =>
                cases r with
                | mk s3 n3 cs3 p3 =>
                  have hV := ihVL rest (idx + 1) om mm
                    (s.withChildren (replaceFirstChild t.id t2 s.children)) n2
                  rw [hv] at hV
                  simp only [StepOk, withChildren_children, withChildren_id] at hV
                  obtain ⟨hVn, hVid, hVcalls, hVch⟩ := hV
                  rw [vecLoop_found_ok fuel key kc rest idx om mm s n t t2 n2 cs2 s3 n3 cs3
                    p3 m3 hlk hr hv]
                  have hn3 : n ≤ n3 := le_trans hRn hVn
                  refine ⟨hn3, by rw [hVid], ?_, ?_⟩
                  · refine freshok_append _ _ _ _ _ ?_ ?_
                    · exact freshok_mono n n n2 n3 _ _ _ (fun x hx => hx) (le_refl n) hVn
                        hcalls2
                    · exact freshok_chain n n2 n3 _ _ _ hRn hVcalls
                        (fun x hx => hrep x hx) hVn
                  · exact freshok_chain n n2 n3 _ _ _ hRn hVch (fun x hx => hrep x hx) hVn
        | none =>
          cases hr : recomposeScope fuel kc (Scope.new n idx kc) (n + 1) with
          | mk t2 n2 cs2 p2 =>
            have hR := ihR kc (Scope.new n idx kc) (n + 1)
            rw [hr] at hR
            simp only [StepOk] at hR
            obtain ⟨hRn, hRid, hRcalls, hRch⟩ := hR
            have hn2 : n ≤ n2 := le_trans (Nat.le_succ n) hRn
            have hnn2 : n < n2 := lt_of_lt_of_le (Nat.lt_succ_self n) hRn
            have htid : t2.id = n := by
              rw [hRid]
              simp [Scope.new]
            have hcalls2 : FreshOk n n2 (forestIds s.children) cs2 := by
              refine freshok_chain n (n + 1) n2 _ _ _ (Nat.le_succ n) hRcalls ?_ hRn
              intro x hx
              simp only [Scope.new, treeIds_def, children_mk, forestIds, id_mk,
                List.mem_singleton] at hx
              exact Or.inr (by omega)
            have hcht2 : FreshOk n n2 (forestIds s.children) (treeIds t2) := by
              rw [treeIds_def]
              refine freshok_cons2 _ _ _ _ _ (Or.inr ⟨le_of_eq htid.symm, htid ▸ hnn2⟩) ?_
              refine freshok_chain n (n + 1) n2 _ _ _ (Nat.le_succ n) hRch ?_ hRn
              intro x hx
              simp only [Scope.new, children_mk, forestIds] at hx
              cases hx
            cases p2 with
            | some p =>
              rw [vecLoop_new_panic fuel key kc rest idx om mm s n t2 n2 cs2 p hlk hr]
              exact ⟨hn2, rfl, hcalls2, freshok_sub _ _ _ _ (fun x hx => hx)⟩
            | none =>
              cases hv : vecLoop fuel rest (idx + 1) om (mapInsert key n mm)
                  (s.withChildren (s.children ++ [t2])) n2 with
              | mk r m3 =>
                cases r with
                | mk s3 n3 cs3 p3 =>
                  have hV := ihVL rest (idx + 1) om (mapInsert key n mm)
                    (s.withChildren (s.children ++ [t2])) n2
                  rw [hv] at hV
                  simp only [StepOk, withChildren_children, withChildren_id] at hV
                  obtain ⟨hVn, hVid, hVcalls, hVch⟩ := hV
                  have happ : FreshOk n n2 (forestIds s.children)
                      (forestIds (s.children ++ [t2])) := by
                    rw [forestIds_append]
                    refine freshok_append _ _ _ _ _
                      (freshok_sub _ _ _ _ (fun x hx => hx)) ?_
                    intro x hx
                    simp only [forestIds_cons, forestIds, List.append_nil] at hx
                    exact hcht2 x hx
                  rw [vecLoop_new_ok fuel key kc rest idx om mm s n t2 n2 cs2 s3 n3 cs3 p3
                    m3 hlk hr hv]
                  have hn3 : n ≤ n3 := le_trans hn2 hVn
                  refine ⟨hn3, by rw [hVid], ?_, ?_⟩
                  · refine freshok_append _ _ _ _ _ ?_ ?_
                    · exact freshok_mono n n n2 n3 _ _ _ (fun x hx => hx) (le_refl n) hVn
                        hcalls2
                    · exact freshok_chain n n2 n3 _ _ _ hn2 hVcalls
                        (fun x hx => happ x hx) hVn
                  · exact freshok_chain n n2 n3 _ _ _ hn2 hVch (fun x hx => happ x hx) hVn

/-- Exactly-once invocation: under a well-formed tree (distinct ids,
all below the counter), one `recompose_scope` call invokes the
scope's own compose body exactly once — the remaining trace entries
belong to children or freshly created scopes. -/
theorem recomposeScope_count_one (fuel : Nat) (c : Comp) (s : Scope) (n : Nat)
    (hnodup : (treeIds s).Nodup) (hbound : ∀ x ∈ treeIds s, x < n) :
    ((recomposeScope (fuel + 1) c s n).calls.count s.id) = 1 := by
  have hsid : s.id < n := hbound s.id (mem_treeIds_self s)
  have hnotin : s.id ∉ forestIds s.children := by
    rw [treeIds_def] at hnodup
    exact (List.nodup_cons.mp hnodup).1
  obtain ⟨ihR, ihB, -, -, -, -⟩ := interpBounds fuel
  cases hb : composeBody fuel c (composeInput s) n with
  | mk s2 n2 cs2 p2 =>
    have hBf := ihB c (composeInput s) n
    rw [hb] at hBf
    simp only [StepOk] at hBf
    obtain ⟨hBn, hBid, hBcalls, hBch⟩ := hBf
    simp only [composeInput_children] at hBcalls hBch
    have hnot2 : s.id ∉ cs2 := by
      intro hmem
      rcases hBcalls s.id hmem with h | ⟨h1, _⟩
      · exact hnotin h
      · omega
    cases p2 with
    | some p =>
      rw [recomposeScope_panic fuel c s n s2 n2 cs2 p hb]
      simp [List.count_cons_self, List.count_eq_zero_of_not_mem hnot2]
    | none =>
      cases hic : c.ignoreChildren with
      | true =>
        rw [recomposeScope_ignore fuel c s n s2 n2 cs2 hb hic]
        simp [List.count_cons_self, List.count_eq_zero_of_not_mem hnot2]
      | false =>
        cases hch : s2.children with
        | cons t rest =>
          rw [recomposeScope_child_cons fuel c s n s2 n2 cs2 t rest hb hic hch]
          cases hr : recomposeScope fuel c.childOf (t.withComp c.childOf) n2 with
          | mk t2 n3 cs3 p3 =>
            have hRf := ihR c.childOf (t.withComp c.childOf) n2
            rw [hr] at hRf
            simp only [StepOk] at hRf
            obtain ⟨hRn, hRid, hRcalls, hRch⟩ := hRf
            simp only [treeIds_withComp] at hRcalls
            have hnot3 : s.id ∉ cs3 := by
              intro hmem
              rcases hRcalls s.id hmem with h | ⟨h1, _⟩
              · have h2 : s.id ∈ forestIds s2.children := by
                  rw [hch]
                  exact mem_forestIds_of_mem_treeIds t _ (List.mem_cons_self _ _) s.id h
                rcases hBch s.id h2 with h3 | ⟨h3, _⟩
                · exact hnotin h3
                · omega
              · omega
            have hnot23 : s.id ∉ cs2 ++ cs3 := by
              intro hmem
              rcases List.mem_append.mp hmem with h | h
              · exact hnot2 h
              · exact hnot3 h
            simp [List.count_cons_self, List.count_eq_zero_of_not_mem hnot23]
        | nil =>
          cases hr : recomposeScope fuel c.childOf (Scope.new n2 0 c.childOf) (n2 + 1) with
          | mk t2 n3 cs3 p3 =>
            have hRf := ihR c.childOf (Scope.new n2 0 c.childOf) (n2 + 1)
            rw [hr] at hRf
            simp only [StepOk] at hRf
            obtain ⟨hRn, hRid, hRcalls, hRch⟩ := hRf
            have hnot3 : s.id ∉ cs3 := by
              intro hmem
              rcases hRcalls s.id hmem with h | ⟨h1, _⟩
              · simp only [Scope.new, treeIds_def, children_mk, forestIds, id_mk,
                  List.mem_singleton] at h
                omega
              · omega
            have hnot23 : s.id ∉ cs2 ++ cs3 := by
              intro hmem
              rcases List.mem_append.mp hmem with h | h
              · exact hnot2 h
              · exact hnot3 h
            cases p3 with
            | some p =>
              rw [recomposeScope_child_nil_panic fuel c s n s2 n2 cs2 t2 n3 cs3 p hb hic
                hch hr]
              simp [List.count_cons_self, List.count_eq_zero_of_not_mem hnot23]
            | none =>
              rw [recomposeScope_child_nil_ok fuel c s n s2 n2 cs2 t2 n3 cs3 hb hic hch hr]
              simp [List.count_cons_self, List.count_eq_zero_of_not_mem hnot23]

/-! ## The no-op tick -/

mutual

/-- No slot anywhere in the tree has the `Queued` flag. -/
def noQueuedTree : Scope → Bool
  | .mk _ _ _ _ _ sts ch =>
    (!sts.any fun st => st.changed == StateChanged.queued) && noQueuedForest ch

/-- No slot in any of these trees has the `Queued` flag. -/
def noQueuedForest : List Scope → Bool
  | [] => true
  | t :: rest => noQueuedTree t && noQueuedForest rest

end

mutual

theorem recomposeSystem_noop (fuel n : Nat) (s : Scope) (h : noQueuedTree s = true) :
    recomposeSystem fuel s n = ⟨s, n, [], none⟩ := by
  cases s with
  | mk i x w c si sts ch =>
    simp only [noQueuedTree, Bool.and_eq_true, Bool.not_eq_true'] at h
    obtain ⟨h1, h2⟩ := h
    have hforest := recomposeForest_noop fuel n ch h2
    simp only [recomposeSystem, anyQueued, states_mk, h1, Bool.false_and, Bool.false_eq_true,
      if_false, hforest]
termination_by sizeOf s

theorem recomposeForest_noop (fuel n : Nat) (l : List Scope) (h : noQueuedForest l = true) :
    recomposeForest fuel l n = (l, n, [], none) := by
  cases l with
  | nil => simp [recomposeForest]
  | cons t rest =>
    simp only [noQueuedForest, Bool.and_eq_true] at h
    obtain ⟨h1, h2⟩ := h
    have ht := recomposeSystem_noop fuel n t h1
    have hrest := recomposeForest_noop fuel n rest h2
    simp only [recomposeForest, ht, hrest, List.nil_append]
termination_by sizeOf l

end

/-- C2: if no state slot anywhere in the tree is flagged `Queued`, one
pass of the `recompose` system invokes no composer's compose body
(the ghost trace stays empty) and returns the tree — every scope's id,
index, composer, decompose flag, state slots and children — unchanged,
with the id counter untouched and no panic. -/
theorem C2_noop_tick_idempotent (fuel n : Nat) (s : Scope)
    (h : noQueuedTree s = true) :
    recomposeSystem fuel s n = ⟨s, n, [], none⟩ :=
  recomposeSystem_noop fuel n s h

/-- A two-level resting tree used to witness the no-op tick. -/
def c2ExChild : Scope := .mk 5 0 false .empty 0 [⟨.generated 2, .changed, .nat 4⟩] []

def c2ExScope : Scope :=
  .mk 4 0 false (.leaf [.useState .tNat (.nat 0)] .empty) 0
    [⟨.generated 1, .unchanged, .nat 7⟩] [c2ExChild]

theorem C2_noop_tick_idempotent_witness :
    noQueuedTree c2ExScope = true ∧
    recomposeSystem 6 c2ExScope 9 = ⟨c2ExScope, 9, [], none⟩ :=
  ⟨by decide, C2_noop_tick_idempotent 6 9 c2ExScope (by decide)⟩

/-- C7 (code bug): `Keyed::decompose` is implemented as
`self.compose.compose(cx)` (`keyed.rs` line 25), so the adapter's
decompose on a `Keyed` composer runs its inner `DynCompose`'s *compose*
body: on a childless scope it creates a state slot, creates and
composes a brand-new child scope, and logs a compose-body invocation —
whereas for every other composer the adapter's decompose leaves the
scope untouched (teardown only, no recursion, as the claim states). -/
theorem C7_keyed_decompose_runs_compose :
    ((decomposeScope 4 (.keyedC 5 3 .empty)
        (Scope.new 0 0 (.keyedC 5 3 .empty)) 1).scope.children.length = 1) ∧
    ((decomposeScope 4 (.keyedC 5 3 .empty)
        (Scope.new 0 0 (.keyedC 5 3 .empty)) 1).scope.states.length = 1) ∧
    ((decomposeScope 4 (.keyedC 5 3 .empty)
        (Scope.new 0 0 (.keyedC 5 3 .empty)) 1).calls = [2]) ∧
    (decomposeScope 4 .empty (Scope.new 0 0 .empty) 1 =
      ⟨Scope.new 0 0 .empty, 1, [], none⟩) ∧
    (decomposeScope 4 (.leaf [.useState .tNat (.nat 0)] .empty)
        (Scope.new 0 0 (.leaf [.useState .tNat (.nat 0)] .empty)) 1 =
      ⟨Scope.new 0 0 (.leaf [.useState .tNat (.nat 0)] .empty), 1, [], none⟩) ∧
    (decomposeScope 4 (.vecC [(0, .empty)]) (Scope.new 0 0 (.vecC [(0, .empty)])) 1 =
      ⟨Scope.new 0 0 (.vecC [(0, .empty)]), 1, [], none⟩) ∧
    (decomposeScope 4 (.dynC 3 .empty) (Scope.new 0 0 (.dynC 3 .empty)) 1 =
      ⟨Scope.new 0 0 (.dynC 3 .empty), 1, [], none⟩) :=
  ⟨by decide, by decide, by decide, rfl, rfl, rfl, rfl⟩

/-! ## Hook-level claims -/

theorem find_first_of_mem (p : DynState → Bool) (l : List DynState) (j : Nat)
    (hj : j < l.length) (hpj : p (l.get ⟨j, hj⟩) = true)
    (hlt : ∀ k (hk : k < l.length), k < j → p (l.get ⟨k, hk⟩) = false) :
    l.find? p = some (l.get ⟨j, hj⟩) := by
  induction l generalizing j with
  | nil => cases hj
  | cons a rest ih =>
    cases j with
    | zero =>
      simp only [List.get] at hpj
      simp [List.find?, hpj]
    | succ j' =>
      have ha : p a = false := hlt 0 (by simp) (by omega)
      have hj' : j' < rest.length := by simpa [Nat.succ_lt_succ_iff] using hj
      have hpj' : p (rest.get ⟨j', hj'⟩) = true := by simpa [List.get] using hpj
      have hlt' : ∀ k (hk : k < rest.length), k < j' → p (rest.get ⟨k, hk⟩) = false := by
        intro k hk hkj
        have := hlt (k + 1) (by simpa [Nat.succ_lt_succ_iff] using hk) (by omega)
        simpa [List.get] using this
      simp [List.find?, ha, ih j' hj' hpj' hlt', List.get]

/-- C9 (amended): the only hook-order violation the engine detects is a
type mismatch: a `use_state` whose requested type differs from the type
of the slot at the current cursor panics (`State value type mismatch.`,
from the `DynState::to_state` downcast), while a matching request
succeeds, returning the cursor slot and advancing the cursor without
touching the slot list.  (A pass making fewer or reordered hook calls
whose types happen to line up is not detected — see the
counterexample.) -/
theorem C9_hook_violation_detection (tag : TyTag) (init : Val) (s : Scope) (n : Nat)
    (h : s.stateIndex < s.states.length) :
    ((s.states.get ⟨s.stateIndex, h⟩).value.tag ≠ tag →
      (useState tag init s n).panic = some "State value type mismatch.") ∧
    ((s.states.get ⟨s.stateIndex, h⟩).value.tag = tag →
      useState tag init s n =
        ⟨some (s.states.get ⟨s.stateIndex, h⟩),
          s.withStateIndex (s.stateIndex + 1), n, none⟩) := by
  have hget : s.states[s.stateIndex]? = some (s.states.get ⟨s.stateIndex, h⟩) := by
    rw [List.getElem?_eq_getElem h]
    simp [List.get_eq_getElem]
  constructor
  · intro hne
    rw [List.get_eq_getElem] at hne
    simp [useState, hget, List.get_eq_getElem, hne]
  · intro heq
    rw [List.get_eq_getElem] at heq
    simp [useState, hget, List.get_eq_getElem, heq]

def c9Slot : DynState := ⟨.generated 1, .changed, .nat 0⟩

theorem C9_hook_violation_detection_witness :
    (0 < [c9Slot].length) ∧
    ((([c9Slot].get ⟨0, by decide⟩).value.tag ≠ .tUnit →
      (useState .tUnit .unit (.mk 9 0 false .empty 0 [c9Slot] []) 5).panic =
        some "State value type mismatch.") ∧
    (([c9Slot].get ⟨0, by decide⟩).value.tag = .tNat →
      useState .tNat (.nat 3) (.mk 9 0 false .empty 0 [c9Slot] []) 5 =
        ⟨some ([c9Slot].get ⟨0, by decide⟩),
          (Scope.mk 9 0 false .empty 0 [c9Slot] []).withStateIndex 1, 5, none⟩)) :=
  ⟨by decide,
    (C9_hook_violation_detection .tUnit .unit (.mk 9 0 false .empty 0 [c9Slot] []) 5
      (by decide)).1,
    (C9_hook_violation_detection .tNat (.nat 3) (.mk 9 0 false .empty 0 [c9Slot] []) 5
      (by decide)).2⟩

/-- C9 counterexample: a pass that makes fewer hook calls than the pass
that created the slots is *silently accepted*, not treated as a fatal
error: the first pass creates two `Nat` slots; a second pass (cursor
reset as `recompose_scope` does) performing only one `use_state`
completes without a panic, with the stale second slot retained. -/
theorem C9_fewer_hook_calls_accepted :
    ((runHooks [.useState .tNat (.nat 0), .useState .tNat (.nat 1)]
        (Scope.new 0 0 .empty) 1).2.2 = none) ∧
    ((runHooks [.useState .tNat (.nat 5)]
        (composeInput (runHooks [.useState .tNat (.nat 0), .useState .tNat (.nat 1)]
          (Scope.new 0 0 .empty) 1).1) 3).2.2 = none) ∧
    ((runHooks [.useState .tNat (.nat 5)]
        (composeInput (runHooks [.useState .tNat (.nat 0), .useState .tNat (.nat 1)]
          (Scope.new 0 0 .empty) 1).1) 3).1.states.length = 2) := by
  decide

/-- C10: `use_state_with_id` resolves its slot by `Manual` id with a
search over the whole slot list, ignoring the hook cursor, yet advances
the cursor by one on both hit and miss (appending a fresh
`Changed`-flagged slot at the end on a miss); consequently a subsequent
positional `use_state` reads the slot at the advanced cursor, which
need not be the slot the same call order addressed before — the
concrete conjuncts exhibit the drift: with slots
`[Generated 0, Manual 7]` and cursor `0`, `use_state_with_id 7` hits
position `1` and moves the cursor to `1`, after which a positional
`use_state` returns the `Manual 7` slot, though `use_state` at the
original scope (cursor `0`) returns the `Generated 0` slot. -/
theorem C10_use_state_with_id_cursor (s : Scope) (mid : Nat) (tag : TyTag) (init : Val)
    (n j : Nat) (hj : j < s.states.length) :
    (((s.states.get ⟨j, hj⟩).id = .manual mid →
      (∀ k (hk : k < s.states.length), k < j → (s.states.get ⟨k, hk⟩).id ≠ .manual mid) →
      (s.states.get ⟨j, hj⟩).value.tag = tag →
      useStateWithId mid tag init s n =
        ⟨some (s.states.get ⟨j, hj⟩), s.withStateIndex (s.stateIndex + 1), n, none⟩)) ∧
    ((∀ st ∈ s.states, st.id ≠ .manual mid) →
      useStateWithId mid tag init s n =
        ⟨some ⟨.manual mid, .changed, init⟩,
          (s.withStates (s.states ++ [⟨.manual mid, .changed, init⟩])).withStateIndex
            (s.stateIndex + 1), n, none⟩) ∧
    ((useStateWithId 7 .tNat (.nat 0)
        (.mk 0 0 false .empty 0
          [⟨.generated 0, .unchanged, .nat 10⟩, ⟨.manual 7, .unchanged, .nat 20⟩] [])
        3).scope.stateIndex = 1) ∧
    ((useState .tNat (.nat 0)
        ((useStateWithId 7 .tNat (.nat 0)
          (.mk 0 0 false .empty 0
            [⟨.generated 0, .unchanged, .nat 10⟩, ⟨.manual 7, .unchanged, .nat 20⟩] [])
          3).scope) 3).slot? = some ⟨.manual 7, .unchanged, .nat 20⟩) ∧
    ((useState .tNat (.nat 0)
        (.mk 0 0 false .empty 0
          [⟨.generated 0, .unchanged, .nat 10⟩, ⟨.manual 7, .unchanged, .nat 20⟩] [])
        3).slot? = some ⟨.generated 0, .unchanged, .nat 10⟩) := by
  refine ⟨?_, ?_, by decide, by decide, by decide⟩
  · intro hid hfirst htag
    rw [List.get_eq_getElem] at hid htag
    have hfind : s.states.find? (fun st => st.id == StateId.manual mid) =
        some (s.states.get ⟨j, hj⟩) := by
      refine find_first_of_mem _ _ j hj ?_ ?_
      · simp [List.get_eq_getElem, hid]
      · intro k hk hkj
        have := hfirst k hk hkj
        rw [List.get_eq_getElem] at this
        simp [List.get_eq_getElem, this]
    simp [useStateWithId, hfind, List.get_eq_getElem, htag]
  · intro hnone
    have hfind : s.states.find? (fun st => st.id == StateId.manual mid) = none := by
      rw [List.find?_eq_none]
      intro st hst
      simp [hnone st hst]
    simp [useStateWithId, hfind]

def c10Ex : Scope :=
  .mk 0 0 false .empty 0
    [⟨.generated 0, .unchanged, .nat 10⟩, ⟨.manual 7, .unchanged, .nat 20⟩] []

theorem C10_use_state_with_id_cursor_witness :
    useStateWithId 7 .tNat (.nat 0) c10Ex 3 =
      ⟨some (c10Ex.states.get ⟨1, by decide⟩),
        c10Ex.withStateIndex (c10Ex.stateIndex + 1), 3, none⟩ :=
  (C10_use_state_with_id_cursor c10Ex 7 .tNat (.nat 0) 3 1 (by decide)).1
    (by decide)
    (fun k hk hkj => by
      have hk0 : k = 0 := by omega
      subst hk0
      intro hcontra
      exact StateId.noConfusion hcontra)
    (by decide)

/-! ## Duplicate keys in a keyed list -/

/-- C8 (amended): composing a keyed list containing a duplicate key
panics (`Duplicate key found`) before any child scope is created or
mutated and before any key-to-id map value is written: the children
list is exactly as before, no compose body runs, and the slot list is
unchanged — except that on a first composition the initial `use_state`
has already appended the (empty) persisted-map slot before the check
fires. -/
theorem C8_duplicate_key_panics (fuel : Nat) (items : List (Nat × Comp)) (s : Scope)
    (n : Nat) (hdup : hasDuplicate (items.map Prod.fst) = true)
    (hslot : ∀ (h : s.stateIndex < s.states.length),
      (s.states.get ⟨s.stateIndex, h⟩).value.tag = .tMap) :
    ((vecBody (fuel + 1) items s n).panic = some "Duplicate key found") ∧
    ((vecBody (fuel + 1) items s n).scope.children = s.children) ∧
    ((vecBody (fuel + 1) items s n).calls = []) ∧
    (((vecBody (fuel + 1) items s n).scope.states = s.states) ∨
      ((vecBody (fuel + 1) items s n).scope.states =
        s.states ++ [⟨.generated n, .changed, .map []⟩])) := by
  cases hcur : s.states[s.stateIndex]? with
  | some slot =>
    have hlen : s.stateIndex < s.states.length := by
      by_contra hge
      rw [List.getElem?_eq_none (by omega)] at hcur
      cases hcur
    have hslotget : s.states.get ⟨s.stateIndex, hlen⟩ = slot := by
      have := List.getElem?_eq_getElem hlen
      rw [hcur] at this
      simpa [List.get_eq_getElem] using this.symm
    have htag : slot.value.tag = TyTag.tMap := by
      rw [← hslotget]
      exact hslot hlen
    have hu : useState .tMap (.map []) s n =
        ⟨some slot, s.withStateIndex (s.stateIndex + 1), n, none⟩ := by
      simp [useState, hcur, htag]
    rw [vecBody_dup fuel items s n slot (s.withStateIndex (s.stateIndex + 1)) n
      none hu hdup]
    exact ⟨rfl, by simp, rfl, Or.inl (by simp)⟩
  | none =>
    have hu : useState .tMap (.map []) s n =
        ⟨some ⟨.generated n, .changed, .map []⟩,
          (s.withStates (s.states ++ [⟨.generated n, .changed, .map []⟩])).withStateIndex
            (s.stateIndex + 1), n + 1, none⟩ := by
      simp [useState, hcur]
    rw [vecBody_dup fuel items s n ⟨.generated n, .changed, .map []⟩
      ((s.withStates (s.states ++ [⟨.generated n, .changed, .map []⟩])).withStateIndex
        (s.stateIndex + 1)) (n + 1) none hu hdup]
    exact ⟨rfl, by simp, rfl, Or.inr (by simp)⟩

theorem C8_duplicate_key_panics_witness :
    (hasDuplicate ([(5, Comp.empty), (5, Comp.empty)].map Prod.fst) = true) ∧
    ((vecBody 4 [(5, .empty), (5, .empty)]
        (.mk 9 0 false (.vecC [(5, .empty), (5, .empty)]) 0
          [⟨.generated 1, .unchanged, .map [(5, 7)]⟩] []) 10).panic =
      some "Duplicate key found") ∧
    ((vecBody 4 [(5, .empty), (5, .empty)]
        (.mk 9 0 false (.vecC [(5, .empty), (5, .empty)]) 0
          [⟨.generated 1, .unchanged, .map [(5, 7)]⟩] []) 10).scope.children = []) ∧
    ((vecBody 4 [(5, .empty), (5, .empty)]
        (.mk 9 0 false (.vecC [(5, .empty), (5, .empty)]) 0
          [⟨.generated 1, .unchanged, .map [(5, 7)]⟩] []) 10).calls = []) ∧
    (((vecBody 4 [(5, .empty), (5, .empty)]
        (.mk 9 0 false (.vecC [(5, .empty), (5, .empty)]) 0
          [⟨.generated 1, .unchanged, .map [(5, 7)]⟩] []) 10).scope.states =
        [⟨.generated 1, .unchanged, .map [(5, 7)]⟩]) ∨
      ((vecBody 4 [(5, .empty), (5, .empty)]
        (.mk 9 0 false (.vecC [(5, .empty), (5, .empty)]) 0
          [⟨.generated 1, .unchanged, .map [(5, 7)]⟩] []) 10).scope.states =
        [⟨.generated 1, .unchanged, .map [(5, 7)]⟩] ++
          [⟨.generated 10, .changed, .map []⟩])) :=
  ⟨by decide,
    (C8_duplicate_key_panics 3 [(5, .empty), (5, .empty)]
      (.mk 9 0 false (.vecC [(5, .empty), (5, .empty)]) 0
        [⟨.generated 1, .unchanged, .map [(5, 7)]⟩] []) 10 (by decide)
      (fun h => rfl)).1,
    (C8_duplicate_key_panics 3 [(5, .empty), (5, .empty)]
      (.mk 9 0 false (.vecC [(5, .empty), (5, .empty)]) 0
        [⟨.generated 1, .unchanged, .map [(5, 7)]⟩] []) 10 (by decide)
      (fun h => rfl)).2.1,
    (C8_duplicate_key_panics 3 [(5, .empty), (5, .empty)]
      (.mk 9 0 false (.vecC [(5, .empty), (5, .empty)]) 0
        [⟨.generated 1, .unchanged, .map [(5, 7)]⟩] []) 10 (by decide)
      (fun h => rfl)).2.2.1,
    (C8_duplicate_key_panics 3 [(5, .empty), (5, .empty)]
      (.mk 9 0 false (.vecC [(5, .empty), (5, .empty)]) 0
        [⟨.generated 1, .unchanged, .map [(5, 7)]⟩] []) 10 (by decide)
      (fun h => rfl)).2.2.2⟩

/-- C8 counterexample: on the first composition of a keyed list with a
duplicate key, `use_state` appends the persisted-map slot *before* the
duplicate check fires, so the scope's state is not exactly as it was
before the call (the children list is untouched). -/
theorem C8_first_composition_creates_slot :
    ((vecBody 4 [(5, .empty), (5, .empty)]
        (Scope.new 0 0 (.vecC [(5, .empty), (5, .empty)])) 1).panic =
      some "Duplicate key found") ∧
    ((vecBody 4 [(5, .empty), (5, .empty)]
        (Scope.new 0 0 (.vecC [(5, .empty), (5, .empty)])) 1).scope.states ≠
      (Scope.new 0 0 (.vecC [(5, .empty), (5, .empty)])).states) ∧
    ((vecBody 4 [(5, .empty), (5, .empty)]
        (Scope.new 0 0 (.vecC [(5, .empty), (5, .empty)])) 1).scope.states =
      [⟨.generated 1, .changed, .map []⟩]) ∧
    ((vecBody 4 [(5, .empty), (5, .empty)]
        (Scope.new 0 0 (.vecC [(5, .empty), (5, .empty)])) 1).scope.children = []) :=
  ⟨by decide, by decide, by decide, rfl⟩

/-! ## The mutation queue -/

theorem foldq_from_single (x : StateId) (subs : List (StateId × MutAction))
    (b la : MutAction) (hall : ∀ p ∈ subs, p.1 = x)
    (hlast : subs.getLast? = some (x, la) ∨ (subs = [] ∧ b = la)) :
    subs.foldl (fun q p => qInsert q p.1 p.2) [(x, b)] = [(x, la)] := by
  induction subs generalizing b with
  | nil =>
    rcases hlast with h | ⟨-, h⟩
    · simp at h
    · simp [h]
  | cons p rest ih =>
    obtain ⟨px, pa⟩ := p
    have hpx : px = x := hall (px, pa) (List.mem_cons_self _ _)
    have hstep : qInsert [(x, b)] px pa = [(x, pa)] := by
      simp [qInsert, hpx]
    simp only [List.foldl_cons, hstep]
    refine ih pa (fun q hq => hall q (List.mem_cons_of_mem _ hq)) ?_
    cases rest with
    | nil =>
      rcases hlast with h | ⟨h, -⟩
      · simp only [List.getLast?_singleton, Option.some_inj] at h
        exact Or.inr ⟨rfl, (Prod.mk.injEq _ _ _ _).mp h |>.2⟩
      · cases h
    | cons q rs =>
      rcases hlast with h | ⟨h, -⟩
      · rw [List.getLast?_cons_cons] at h
        exact Or.inl h
      · cases h

/-- A sequence of `SetState` submissions that all target the same
`StateId` collapses to a single queue entry holding the last submitted
action (`HashMap::insert` overwrites). -/
theorem buildQueue_all_same (x : StateId) (subs : List (StateId × MutAction))
    (la : MutAction) (hall : ∀ p ∈ subs, p.1 = x)
    (hlast : subs.getLast? = some (x, la)) :
    buildQueue subs = [(x, la)] := by
  cases subs with
  | nil => simp at hlast
  | cons p rest =>
    obtain ⟨px, pa⟩ := p
    have hpx : px = x := hall (px, pa) (List.mem_cons_self _ _)
    have hstep : qInsert [] px pa = [(x, pa)] := by
      simp [qInsert, hpx]
    simp only [buildQueue, List.foldl_cons, hstep]
    refine foldq_from_single x rest pa la
      (fun q hq => hall q (List.mem_cons_of_mem _ hq)) ?_
    cases rest with
    | nil =>
      simp only [List.getLast?_singleton, Option.some_inj] at hlast
      exact Or.inr ⟨rfl, (Prod.mk.injEq _ _ _ _).mp hlast |>.2⟩
    | cons q rs =>
      rw [List.getLast?_cons_cons] at hlast
      exact Or.inl hlast

theorem applySlots_nilq (l : List DynState) : applySlots [] l = (l, []) := by
  induction l with
  | nil => rfl
  | cons st rest ih => simp [applySlots, qTake, ih]

mutual

theorem setStatesScope_nilq (s : Scope) : setStatesScope s [] = (s, []) := by
  cases s with
  | mk i x w c si sts ch =>
    have h1 := applySlots_nilq sts
    have h2 := setStatesForest_nilq ch
    simp [setStatesScope, h1, h2]
termination_by sizeOf s

theorem setStatesForest_nilq (l : List Scope) : setStatesForest l [] = (l, []) := by
  cases l with
  | nil => rfl
  | cons t rest =>
    have h1 := setStatesScope_nilq t
    have h2 := setStatesForest_nilq rest
    simp [setStatesForest, h1, h2]
termination_by sizeOf l

end

theorem applySlots_single (x : StateId) (a : MutAction) (sts : List DynState) (j : Nat)
    (hj : j < sts.length) (hx : (sts.get ⟨j, hj⟩).id = x)
    (hfirst : ∀ k (hk : k < sts.length), k < j → (sts.get ⟨k, hk⟩).id ≠ x) :
    applySlots [(x, a)] sts =
      (sts.take j ++
        ⟨x, if (a.apply (sts.get ⟨j, hj⟩).value).2 then .queued
            else (sts.get ⟨j, hj⟩).changed,
          (a.apply (sts.get ⟨j, hj⟩).value).1⟩ :: sts.drop (j + 1), []) := by
  induction sts generalizing j with
  | nil => cases hj
  | cons st rest ih =>
    cases j with
    | zero =>
      simp only [List.get] at hx
      have htake : qTake x [(x, a)] = some (a, []) := by
        simp [qTake]
      simp [applySlots, hx, htake, applySlots_nilq, List.get]
    | succ j' =>
      have hne : st.id ≠ x := by
        have := hfirst 0 (by simp) (by omega)
        simpa [List.get] using this
      have htake : qTake st.id [(x, a)] = none := by
        simp only [qTake]
        rw [if_neg (fun h => hne h.symm)]
      have hj' : j' < rest.length := by simpa [Nat.succ_lt_succ_iff] using hj
      have hx' : (rest.get ⟨j', hj'⟩).id = x := by simpa [List.get] using hx
      have hfirst' : ∀ k (hk : k < rest.length), k < j' →
          (rest.get ⟨k, hk⟩).id ≠ x := by
        intro k hk hkj
        have := hfirst (k + 1) (by simpa [Nat.succ_lt_succ_iff] using hk) (by omega)
        simpa [List.get] using this
      simp only [applySlots, htake, ih j' hj' hx' hfirst', List.take_succ_cons,
        List.drop_succ_cons, List.cons_append, List.get]

/-- C5 (amended): for a `StateId` and any non-empty sequence of
`SetState` submissions targeting it, only the last submitted action
takes effect — the queue collapses by `insert` overwrite, and the
mutation-application walk gives the (first) slot with that id the value
produced by the last action on the slot's prior value, sets its changed
flag to `Queued` if the last action's should-flag is set and leaves the
flag at its prior value otherwise; every other slot is untouched. -/
theorem C5_last_write_wins (i xx : Nat) (w : Bool) (c : Comp) (si : Nat)
    (sts : List DynState) (x : StateId) (j : Nat) (hj : j < sts.length)
    (hx : (sts.get ⟨j, hj⟩).id = x)
    (hfirst : ∀ k (hk : k < sts.length), k < j → (sts.get ⟨k, hk⟩).id ≠ x)
    (subs : List (StateId × MutAction)) (la : MutAction)
    (hall : ∀ p ∈ subs, p.1 = x) (hlast : subs.getLast? = some (x, la)) :
    setStatesScope (.mk i xx w c si sts []) (buildQueue subs) =
      (.mk i xx w c si
        (sts.take j ++
          ⟨x, if (la.apply (sts.get ⟨j, hj⟩).value).2 then .queued
              else (sts.get ⟨j, hj⟩).changed,
            (la.apply (sts.get ⟨j, hj⟩).value).1⟩ :: sts.drop (j + 1)) [], []) := by
  rw [buildQueue_all_same x subs la hall hlast]
  have happ := applySlots_single x la sts j hj hx hfirst
  simp [setStatesScope, happ, setStatesForest]

def c5ExSlot : DynState := ⟨.manual 7, .queued, .nat 0⟩

def c5ExSubs : List (StateId × MutAction) :=
  [(.manual 7, actionOfSet (.nat 1)), (.manual 7, actionOfSetUnchanged (.nat 2))]

theorem C5_last_write_wins_witness :
    (0 < [c5ExSlot].length) ∧
    (c5ExSubs.getLast? = some (.manual 7, actionOfSetUnchanged (.nat 2))) ∧
    setStatesScope (.mk 0 5 false .empty 0 [c5ExSlot] []) (buildQueue c5ExSubs) =
      (.mk 0 5 false .empty 0
        ([c5ExSlot].take 0 ++
          ⟨.manual 7,
            if ((actionOfSetUnchanged (.nat 2)).apply
                ([c5ExSlot].get ⟨0, by decide⟩).value).2 then .queued
            else ([c5ExSlot].get ⟨0, by decide⟩).changed,
            ((actionOfSetUnchanged (.nat 2)).apply
              ([c5ExSlot].get ⟨0, by decide⟩).value).1⟩ :: [c5ExSlot].drop 1) [], []) :=
  ⟨by decide, rfl,
    C5_last_write_wins 0 5 false .empty 0 [c5ExSlot] (.manual 7) 0 (by decide)
      (by decide) (fun k hk hkj => absurd hkj (by omega)) c5ExSubs
      (actionOfSetUnchanged (.nat 2))
      (fun p hp => by
        rcases List.mem_cons.mp hp with h | h
        · rw [h]
        · rcases List.mem_cons.mp h with h2 | h2
          · rw [h2]
          · cases h2)
      rfl⟩

/-- C5 counterexample: a slot already flagged `Queued` before the
mutation-application phase keeps that flag when the last action's
should-flag is false (`set_unchanged`), so the flag is `Queued` after
the phase although the last action's should-flag is not set — "becomes
Queued exactly when the last action's should-flag is set" fails; the
value does take the last write. -/
theorem C5_flag_not_iff_should :
    ((setStatesScope (.mk 0 5 false .empty 0 [c5ExSlot] [])
        (buildQueue c5ExSubs)).1.states =
      [⟨.manual 7, .queued, .nat 2⟩]) ∧
    (c5ExSubs.getLast? = some (.manual 7, MutAction.set (.nat 2) false)) :=
  ⟨by decide, rfl⟩

/-- C6 (amended): the mutation-application walk routes each queued
action to the *first* slot with the matching `StateId` in pre-order and
then removes the action from the queue (`HashMap::remove`), so when the
same Manual id occurs in several scopes only the first one encountered
is updated: with a single queued action whose id occurs in the root
scope, the root slot is updated and the children are returned exactly
unchanged — even when they also contain slots with that id. -/
theorem C6_first_match_consumes (i xx : Nat) (w : Bool) (c : Comp) (si : Nat)
    (sts : List DynState) (ch : List Scope) (x : StateId) (a : MutAction) (j : Nat)
    (hj : j < sts.length) (hx : (sts.get ⟨j, hj⟩).id = x)
    (hfirst : ∀ k (hk : k < sts.length), k < j → (sts.get ⟨k, hk⟩).id ≠ x) :
    setStatesScope (.mk i xx w c si sts ch) [(x, a)] =
      (.mk i xx w c si
        (sts.take j ++
          ⟨x, if (a.apply (sts.get ⟨j, hj⟩).value).2 then .queued
              else (sts.get ⟨j, hj⟩).changed,
            (a.apply (sts.get ⟨j, hj⟩).value).1⟩ :: sts.drop (j + 1)) ch, []) := by
  have happ := applySlots_single x a sts j hj hx hfirst
  simp [setStatesScope, happ, setStatesForest_nilq]

def c6ExChild : Scope := .mk 1 0 false .empty 0 [⟨.manual 7, .unchanged, .nat 0⟩] []

theorem C6_first_match_consumes_witness :
    (0 < [(⟨.manual 7, .unchanged, .nat 0⟩ : DynState)].length) ∧
    setStatesScope (.mk 0 0 false .empty 0 [⟨.manual 7, .unchanged, .nat 0⟩] [c6ExChild])
        [(.manual 7, MutAction.set (.nat 9) true)] =
      (.mk 0 0 false .empty 0
        ([(⟨.manual 7, .unchanged, .nat 0⟩ : DynState)].take 0 ++
          ⟨.manual 7,
            if ((MutAction.set (.nat 9) true).apply
                ([(⟨.manual 7, .unchanged, .nat 0⟩ : DynState)].get ⟨0, by decide⟩).value).2
            then .queued
            else ([(⟨.manual 7, .unchanged, .nat 0⟩ : DynState)].get ⟨0, by decide⟩).changed,
            ((MutAction.set (.nat 9) true).apply
              ([(⟨.manual 7, .unchanged, .nat 0⟩ : DynState)].get ⟨0, by decide⟩).value).1⟩ ::
          [(⟨.manual 7, .unchanged, .nat 0⟩ : DynState)].drop 1) [c6ExChild], []) :=
  ⟨by decide,
    C6_first_match_consumes 0 0 false .empty 0 [⟨.manual 7, .unchanged, .nat 0⟩]
      [c6ExChild] (.manual 7) (MutAction.set (.nat 9) true) 0 (by decide) (by decide)
      (fun k hk hkj => absurd hkj (by omega))⟩

/-- C6 counterexample: with the Manual id 7 present in both a parent
scope and its child and a single queued `set(9, true)` action, the
mutation-application walk updates the parent's slot and leaves the
child's slot untouched (the action was removed from the queue at the
first match) — "all of those slots are updated" fails. -/
theorem C6_only_first_slot_updated :
    ((setStatesScope
        (.mk 0 0 false .empty 0 [⟨.manual 7, .unchanged, .nat 0⟩] [c6ExChild])
        [(.manual 7, MutAction.set (.nat 9) true)]).1.states =
      [⟨.manual 7, .queued, .nat 9⟩]) ∧
    ((setStatesScope
        (.mk 0 0 false .empty 0 [⟨.manual 7, .unchanged, .nat 0⟩] [c6ExChild])
        [(.manual 7, MutAction.set (.nat 9) true)]).1.children.map Scope.states =
      [[⟨.manual 7, .unchanged, .nat 0⟩]]) ∧
    ([[(⟨.manual 7, .unchanged, .nat 0⟩ : DynState)]] ≠
      [[(⟨.manual 7, .queued, .nat 9⟩ : DynState)]]) := by
  refine ⟨by decide, ?_, by decide⟩
  decide

/-! ## The keyed list does not physically reorder its children -/

theorem map_id_replaceFirstChild (sid : Nat) (t2 : Scope) (l : List Scope)
    (h : t2.id = sid) : (replaceFirstChild sid t2 l).map Scope.id = l.map Scope.id := by
  induction l with
  | nil => rfl
  | cons a rest ih =>
    by_cases ha : a.id = sid
    · simp [replaceFirstChild, ha, h]
    · simp [replaceFirstChild, ha, ih]

theorem map_id_markFirstChild (sid : Nat) (l : List Scope) :
    (markFirstChild sid l).map Scope.id = l.map Scope.id := by
  induction l with
  | nil => rfl
  | cons a rest ih =>
    by_cases ha : a.id = sid
    · simp [markFirstChild, ha]
    · simp [markFirstChild, ha, ih]

theorem map_id_vecMark (snapshot : List (Nat × Nat)) (keys : List Nat)
    (m : List (Nat × Nat)) (ch : List Scope) :
    (vecMark snapshot keys m ch).2.map Scope.id = ch.map Scope.id := by
  induction snapshot generalizing m ch with
  | nil => rfl
  | cons p rest ih =>
    obtain ⟨key, sid⟩ := p
    by_cases hk : key ∈ keys
    · simp [vecMark, hk, ih]
    · simp only [vecMark, if_neg hk]
      cases h : findChild sid ch with
      | none => simp [ih]
      | some t => simp [ih, map_id_markFirstChild]

/-- During the per-item loop, existing children are recomposed strictly
in place and new children are appended at the end: the id sequence of
the children list is the prior id sequence followed by freshly
generated ids. -/
theorem vecLoop_ids (fuel : Nat) : ∀ (items : List (Nat × Comp)) (idx : Nat)
    (om mm : List (Nat × Nat)) (s : Scope) (n : Nat),
    (vecLoop fuel items idx om mm s n).1.panic = none →
    ∃ newIds, (vecLoop fuel items idx om mm s n).1.scope.children.map Scope.id =
      s.children.map Scope.id ++ newIds ∧ ∀ x ∈ newIds, n ≤ x := by
  induction fuel with
  | zero =>
    intro items idx om mm s n hok
    simp [vecLoop] at hok
  | succ fuel ih =>
    intro items idx om mm s n hok
    cases items with
    | nil =>
      rw [vecLoop_nil] at hok ⊢
      exact ⟨[], by simp, by simp⟩
    | cons item rest =>
      obtain ⟨key, kc⟩ := item
      obtain ⟨ihR, -, -, -, -, -⟩ := interpBounds fuel
      cases hlk : (mapLookup key om).bind (fun sid => findChild sid s.children) with
      | some t =>
        cases hr : recomposeScope fuel kc ((t.withIndex idx).withComp kc) n with
        | mk t2 n2 cs2 p2 =>
          have hR := ihR kc ((t.withIndex idx).withComp kc) n
          rw [hr] at hR
          simp only [StepOk] at hR
          obtain ⟨hRn, hRid, -, -⟩ := hR
          simp only [withComp_id, withIndex_id] at hRid
          cases p2 with
          | some p =>
            rw [vecLoop_found_panic fuel key kc rest idx om mm s n t t2 n2 cs2 p hlk hr]
              at hok
            cases hok
          | none =>
            cases hv : vecLoop fuel rest (idx + 1) om mm
                (s.withChildren (replaceFirstChild t.id t2 s.children)) n2 with
            | mk r m3 =>
              cases r with
              | mk s3 n3 cs3 p3 =>
                rw [vecLoop_found_ok fuel key kc rest idx om mm s n t t2 n2 cs2 s3 n3 cs3
                  p3 m3 hlk hr hv] at hok ⊢
                have hih := ih rest (idx + 1) om mm
                  (s.withChildren (replaceFirstChild t.id t2 s.children)) n2
                rw [hv] at hih
                obtain ⟨newIds, hmap, hb⟩ := hih hok
                refine ⟨newIds, ?_, fun x hx => le_trans hRn (hb x hx)⟩
                rw [hmap]
                simp [map_id_replaceFirstChild t.id t2 s.children hRid]
      | none =>
        cases hr : recomposeScope fuel kc (Scope.new n idx kc) (n + 1) with
        | mk t2 n2 cs2 p2 =>
          have hR := ihR kc (Scope.new n idx kc) (n + 1)
          rw [hr] at hR
          simp only [StepOk] at hR
          obtain ⟨hRn, hRid, -, -⟩ := hR
          have htid : t2.id = n := by
            rw [hRid]
            simp [Scope.new]
          cases p2 with
          | some p =>
            rw [vecLoop_new_panic fuel key kc rest idx om mm s n t2 n2 cs2 p hlk hr] at hok
            cases hok
          | none =>
            cases hv : vecLoop fuel rest (idx + 1) om (mapInsert key n mm)
                (s.withChildren (s.children ++ [t2])) n2 with
            | mk r m3 =>
              cases r with
              | mk s3 n3 cs3 p3 =>
                rw [vecLoop_new_ok fuel key kc rest idx om mm s n t2 n2 cs2 s3 n3 cs3
                  p3 m3 hlk hr hv] at hok ⊢
                have hih := ih rest (idx + 1) om (mapInsert key n mm)
                  (s.withChildren (s.children ++ [t2])) n2
                rw [hv] at hih
                obtain ⟨newIds, hmap, hb⟩ := hih hok
                refine ⟨n :: newIds, ?_, ?_⟩
                · rw [hmap]
                  simp [htid]
                · intro x hx
                  rcases List.mem_cons.mp hx with h | h
                  · omega
                  · have := hb x h
                    have hn2 : n + 1 ≤ n2 := hRn
                    omega

/-- C3 (amended): the `Vec` composer does not physically reorder the
children list: after a panic-free composition the children id sequence
is the prior id sequence (existing children recomposed strictly in
place) followed by the freshly created children in input order; the
marking pass and the map write-back touch no positions.  (Reconciling
the displayed order with the input is left to each child's updated
`index`/`child_index` hints and the separate `order_children` system.) -/
theorem C3_children_not_reordered (fuel : Nat) (items : List (Nat × Comp)) (s : Scope)
    (n : Nat) (hok : (vecBody (fuel + 1) items s n).panic = none) :
    ∃ newIds, (vecBody (fuel + 1) items s n).scope.children.map Scope.id =
      s.children.map Scope.id ++ newIds ∧ ∀ x ∈ newIds, n ≤ x := by
  cases hcur : s.states[s.stateIndex]? with
  | some slot =>
    by_cases htag : slot.value.tag = TyTag.tMap
    · have hu : useState .tMap (.map []) s n =
          ⟨some slot, s.withStateIndex (s.stateIndex + 1), n, none⟩ := by
        simp [useState, hcur, htag]
      cases hdup : hasDuplicate (items.map Prod.fst) with
      | true =>
        rw [vecBody_dup fuel items s n slot (s.withStateIndex (s.stateIndex + 1)) n
          none hu hdup] at hok
        cases hok
      | false =>
        cases hv : vecLoop fuel items 0 (mapOfVal slot.value) (mapOfVal slot.value)
            (s.withStateIndex (s.stateIndex + 1)) n with
        | mk r m2 =>
          cases r with
          | mk s2 n2 cs p2 =>
            cases p2 with
            | some p =>
              rw [vecBody_loop_panic fuel items s n slot
                (s.withStateIndex (s.stateIndex + 1)) n none s2 n2 cs p m2 hu hdup hv]
                at hok
              cases hok
            | none =>
              have hloop := vecLoop_ids fuel items 0 (mapOfVal slot.value)
                (mapOfVal slot.value) (s.withStateIndex (s.stateIndex + 1)) n
              rw [hv] at hloop
              obtain ⟨newIds, hmap, hb⟩ := hloop rfl
              simp only [withStateIndex_children] at hmap
              cases hm : vecMark m2 (items.map Prod.fst) m2 s2.children with
              | mk m3 ch3 =>
                have hch3 : ch3.map Scope.id = s2.children.map Scope.id := by
                  have h := map_id_vecMark m2 (items.map Prod.fst) m2 s2.children
                  rw [hm] at h
                  exact h
                cases hs : setStateById slot.id (.map m3) false (s2.withChildren ch3) with
                | mk s4 p4 =>
                  have hs4ch : s4.children = ch3 := by
                    have h := setStateById_children slot.id (.map m3) false
                      (s2.withChildren ch3)
                    rw [hs] at h
                    simpa using h
                  rw [vecBody_full fuel items s n slot (s.withStateIndex (s.stateIndex + 1))
                    n none s2 n2 cs m2 m3 ch3 s4 p4 hu hdup hv hm hs]
                  exact ⟨newIds, by simp [hs4ch, hch3, hmap], hb⟩
    · have hu : useState .tMap (.map []) s n =
          ⟨none, s.withStateIndex (s.stateIndex + 1), n,
            some "State value type mismatch."⟩ := by
        simp [useState, hcur, htag]
      rw [vecBody_hook_panic fuel items s n (s.withStateIndex (s.stateIndex + 1)) n
        (some "State value type mismatch.") hu] at hok
      cases hok
  | none =>
    have hu : useState .tMap (.map []) s n =
        ⟨some ⟨.generated n, .changed, .map []⟩,
          (s.withStates (s.states ++ [⟨.generated n, .changed, .map []⟩])).withStateIndex
            (s.stateIndex + 1), n + 1, none⟩ := by
      simp [useState, hcur]
    cases hdup : hasDuplicate (items.map Prod.fst) with
    | true =>
      rw [vecBody_dup fuel items s n ⟨.generated n, .changed, .map []⟩
        ((s.withStates (s.states ++ [⟨.generated n, .changed, .map []⟩])).withStateIndex
          (s.stateIndex + 1)) (n + 1) none hu hdup] at hok
      cases hok
    | false =>
      cases hv : vecLoop fuel items 0 (mapOfVal (Val.map []))
          (mapOfVal (Val.map []))
          ((s.withStates (s.states ++ [⟨.generated n, .changed, .map []⟩])).withStateIndex
            (s.stateIndex + 1)) (n + 1) with
      | mk r m2 =>
        cases r with
        | mk s2 n2 cs p2 =>
          cases p2 with
          | some p =>
            rw [vecBody_loop_panic fuel items s n ⟨.generated n, .changed, .map []⟩
              ((s.withStates (s.states ++ [⟨.generated n, .changed, .map []⟩])).withStateIndex
                (s.stateIndex + 1)) (n + 1) none s2 n2 cs p m2 hu hdup hv] at hok
            cases hok
          | none =>
            have hloop := vecLoop_ids fuel items 0 (mapOfVal (Val.map []))
              (mapOfVal (Val.map []))
              ((s.withStates (s.states ++ [⟨.generated n, .changed, .map []⟩])).withStateIndex
                (s.stateIndex + 1)) (n + 1)
            rw [hv] at hloop
            obtain ⟨newIds, hmap, hb⟩ := hloop rfl
            simp only [withStateIndex_children, withStates_children] at hmap
            cases hm : vecMark m2 (items.map Prod.fst) m2 s2.children with
            | mk m3 ch3 =>
              have hch3 : ch3.map Scope.id = s2.children.map Scope.id := by
                have h := map_id_vecMark m2 (items.map Prod.fst) m2 s2.children
                rw [hm] at h
                exact h
              cases hs : setStateById (StateId.generated n) (.map m3) false
                  (s2.withChildren ch3) with
              | mk s4 p4 =>
                have hs4ch : s4.children = ch3 := by
                  have h := setStateById_children (StateId.generated n) (.map m3) false
                    (s2.withChildren ch3)
                  rw [hs] at h
                  simpa using h
                rw [vecBody_full fuel items s n ⟨.generated n, .changed, .map []⟩
                  ((s.withStates (s.states ++ [⟨.generated n, .changed, .map []⟩])).withStateIndex
                    (s.stateIndex + 1)) (n + 1) none s2 n2 cs m2 m3 ch3 s4 p4 hu hdup hv
                  hm hs]
                exact ⟨newIds, by simp [hs4ch, hch3, hmap],
                  fun x hx => le_trans (Nat.le_succ n) (hb x hx)⟩

def c3ChildA : Scope := .mk 100 0 false .empty 0 [] []

def c3ChildB : Scope := .mk 101 1 false .empty 0 [] []

def c3Ex : Scope :=
  .mk 50 0 false (.vecC [(1, .empty), (0, .empty)]) 0
    [⟨.generated 10, .unchanged, .map [(0, 100), (1, 101)]⟩] [c3ChildA, c3ChildB]

/-- C3 counterexample: composing the keyed children `[0, 1]` (scope ids
100 and 101) with the new input order `[1, 0]` completes without a
panic, yet the children list keeps its old physical order `[100, 101]`
— it is not stable-sorted to the input order `[101, 100]`; only the
children's `index` hints record the new positions (`[1, 0]`). -/
theorem C3_no_physical_sort :
    ((vecBody 6 [(1, .empty), (0, .empty)] c3Ex 200).panic = none) ∧
    ((vecBody 6 [(1, .empty), (0, .empty)] c3Ex 200).scope.children.map Scope.id =
      [100, 101]) ∧
    (((vecBody 6 [(1, .empty), (0, .empty)] c3Ex 200).scope.children.map Scope.id) ≠
      [101, 100]) ∧
    ((vecBody 6 [(1, .empty), (0, .empty)] c3Ex 200).scope.children.map Scope.index =
      [1, 0]) := by
  refine ⟨by decide, by decide, by decide, by decide⟩

theorem C3_children_not_reordered_witness :
    ((vecBody 6 [(1, .empty), (0, .empty)] c3Ex 200).panic = none) ∧
    (∃ newIds, (vecBody 6 [(1, .empty), (0, .empty)] c3Ex 200).scope.children.map Scope.id =
      c3Ex.children.map Scope.id ++ newIds ∧ ∀ x ∈ newIds, 200 ≤ x) :=
  ⟨by decide, C3_children_not_reordered 5 [(1, .empty), (0, .empty)] c3Ex 200 (by decide)⟩

/-! ## The dynamic-type composer: remount versus in-place reuse -/

/-- C4: on a `DynCompose` composition with an existing first child, a
type-tag mismatch marks that child for decomposition and appends a
brand-new child — built by composing a `Scope.new` (fresh id, empty
state) for the new inner composer — while a matching tag reuses the
existing child in place: its composer is replaced with the new inner
composer and it is recomposed, retaining its id (and its slots, since
the recomposition starts from the existing scope). -/
theorem C4_dyn_remount_or_reuse (fuel tag old : Nat) (inner : Comp) (s : Scope) (n : Nat)
    (slot0 : DynState) (srest : List DynState) (t : Scope) (rest : List Scope)
    (hsi : s.stateIndex = 0) (hst : s.states = slot0 :: srest)
    (hv : slot0.value = .typeId old) (hch : s.children = t :: rest)
    (hbound : ∀ x ∈ treeIds s, x < n) :
    (old ≠ tag →
      (dynBody (fuel + 2) tag inner s n).panic = none →
      ((dynBody (fuel + 2) tag inner s n).scope.children =
        (t.withWillDecompose true :: rest) ++
          [(recomposeScope fuel inner (Scope.new n 0 inner) (n + 1)).scope]) ∧
      ((recomposeScope fuel inner (Scope.new n 0 inner) (n + 1)).scope.id = n) ∧
      (n ∉ treeIds s)) ∧
    (old = tag →
      ((dynBody (fuel + 2) tag inner s n).scope.children =
        (recomposeScope (fuel + 1) inner (t.withComp inner) n).scope :: rest) ∧
      ((recomposeScope (fuel + 1) inner (t.withComp inner) n).scope.id = t.id)) := by
  have hcur : s.states[s.stateIndex]? = some slot0 := by
    rw [hsi, hst]
    simp
  have htg : slot0.value.tag = TyTag.tTypeId := by
    rw [hv]
    rfl
  have hu : useState .tTypeId (.typeId tag) s n =
      ⟨some slot0, s.withStateIndex (s.stateIndex + 1), n, none⟩ := by
    simp [useState, hcur, htg]
  have hch1 : (s.withStateIndex (s.stateIndex + 1)).children = t :: rest := by
    simpa using hch
  constructor
  · intro hne hpanic
    obtain ⟨ihR, -, -, -, -, -⟩ := interpBounds fuel
    have htag : slot0.value ≠ Val.typeId tag := by
      rw [hv]
      intro hcontra
      exact hne (Val.typeId.inj hcontra)
    rw [dynBody_remount (fuel + 1) tag inner s n slot0
      (s.withStateIndex (s.stateIndex + 1)) n none t rest hu hch1 htag] at hpanic ⊢
    cases hr : recomposeScope fuel inner (Scope.new n 0 inner) (n + 1) with
    | mk t2 n2 cs2 p2 =>
      have hR := ihR inner (Scope.new n 0 inner) (n + 1)
      rw [hr] at hR
      simp only [StepOk] at hR
      obtain ⟨-, hRid, -, -⟩ := hR
      have htid : t2.id = n := by
        rw [hRid]
        simp [Scope.new]
      cases p2 with
      | some p =>
        rw [dynCreateNew_panic fuel tag inner slot0.id
          ((s.withStateIndex (s.stateIndex + 1)).withChildren
            (t.withWillDecompose true :: rest)) n t2 n2 cs2 p hr] at hpanic
        cases hpanic
      | none =>
        cases hs : setStateById slot0.id (.typeId tag) true
            (((s.withStateIndex (s.stateIndex + 1)).withChildren
              (t.withWillDecompose true :: rest)).withChildren
              (((s.withStateIndex (s.stateIndex + 1)).withChildren
                (t.withWillDecompose true :: rest)).children ++ [t2])) with
        | mk s3 p3 =>
          have hs3ch : s3.children = (t.withWillDecompose true :: rest) ++ [t2] := by
            have h := setStateById_children slot0.id (.typeId tag) true
              (((s.withStateIndex (s.stateIndex + 1)).withChildren
                (t.withWillDecompose true :: rest)).withChildren
                (((s.withStateIndex (s.stateIndex + 1)).withChildren
                  (t.withWillDecompose true :: rest)).children ++ [t2]))
            rw [hs] at h
            simpa using h
          rw [dynCreateNew_ok fuel tag inner slot0.id
            ((s.withStateIndex (s.stateIndex + 1)).withChildren
              (t.withWillDecompose true :: rest)) n t2 n2 cs2 s3 p3 hr hs]
          refine ⟨by simpa using hs3ch, htid, ?_⟩
          intro hmem
          have := hbound n hmem
          omega
  · intro heq
    obtain ⟨ihR, -, -, -, -, -⟩ := interpBounds (fuel + 1)
    have htag : slot0.value = Val.typeId tag := by
      rw [hv, heq]
    rw [dynBody_match (fuel + 1) tag inner s n slot0
      (s.withStateIndex (s.stateIndex + 1)) n none t rest hu hch1 htag]
    have hR := ihR inner (t.withComp inner) n
    simp only [StepOk] at hR
    obtain ⟨-, hRid, -, -⟩ := hR
    simp only [withComp_id] at hRid
    exact ⟨by simp, hRid⟩

def c4Child : Scope := .mk 2 0 false .empty 0 [] []

def c4Ex : Scope :=
  .mk 0 0 false (.dynC 3 .empty) 0 [⟨.generated 1, .unchanged, .typeId 9⟩] [c4Child]

theorem C4_dyn_remount_or_reuse_witness :
    ((dynBody 5 3 .empty c4Ex 5).scope.children =
      (c4Child.withWillDecompose true :: []) ++
        [(recomposeScope 3 .empty (Scope.new 5 0 .empty) 6).scope]) ∧
    ((recomposeScope 3 .empty (Scope.new 5 0 .empty) 6).scope.id = 5) ∧
    (5 ∉ treeIds c4Ex) :=
  (C4_dyn_remount_or_reuse 3 3 9 .empty c4Ex 5 ⟨.generated 1, .unchanged, .typeId 9⟩ []
    c4Child [] rfl rfl rfl rfl (by decide)).1 (by decide) (by decide)

/-! ## The recompose-scope protocol -/

theorem recomposeScope_body_ok (fuel : Nat) (c : Comp) (s : Scope) (n : Nat)
    (hok : (recomposeScope (fuel + 1) c s n).panic = none) :
    ∃ s2 n2 cs2, composeBody fuel c (composeInput s) n = ⟨s2, n2, cs2, none⟩ := by
  cases hb : composeBody fuel c (composeInput s) n with
  | mk s2 n2 cs2 p2 =>
    cases p2 with
    | some p =>
      rw [recomposeScope_panic fuel c s n s2 n2 cs2 p hb] at hok
      cases hok
    | none => exact ⟨s2, n2, cs2, rfl⟩

theorem recomposeScope_states_demoted (fuel : Nat) (c : Comp) (s : Scope) (n : Nat)
    (s2 : Scope) (n2 : Nat) (cs2 : List Nat)
    (hb : composeBody fuel c (composeInput s) n = ⟨s2, n2, cs2, none⟩)
    (hok : (recomposeScope (fuel + 1) c s n).panic = none) :
    (recomposeScope (fuel + 1) c s n).scope.states = demoteChanged s2.states := by
  cases hic : c.ignoreChildren with
  | true =>
    rw [recomposeScope_ignore fuel c s n s2 n2 cs2 hb hic]
    simp
  | false =>
    cases hch : s2.children with
    | cons t rest =>
      rw [recomposeScope_child_cons fuel c s n s2 n2 cs2 t rest hb hic hch]
      simp
    | nil =>
      cases hr : recomposeScope fuel c.childOf (Scope.new n2 0 c.childOf) (n2 + 1) with
      | mk t2 n3 cs3 p3 =>
        cases p3 with
        | some p =>
          rw [recomposeScope_child_nil_panic fuel c s n s2 n2 cs2 t2 n3 cs3 p hb hic hch
            hr] at hok
          cases hok
        | none =>
          rw [recomposeScope_child_nil_ok fuel c s n s2 n2 cs2 t2 n3 cs3 hb hic hch hr]
          simp

/-- C1: a completed `recompose_scope` call on a well-formed scope (all
tree ids distinct and below the id counter) first resets the hook
cursor to zero and promotes every `Queued` slot to `Changed` (the
scope the compose body receives is `composeInput s`), invokes the
scope's own compose body exactly once (the ghost trace holds exactly
one entry for the scope's id), and afterwards demotes every `Changed`
slot of the body's output to `Unchanged` — so the call returns with no
slot still flagged `Changed`: a slot written `Queued` is observed as
`Changed` during exactly that one composition pass. -/
theorem C1_recompose_protocol (fuel : Nat) (c : Comp) (s : Scope) (n : Nat)
    (hnodup : (treeIds s).Nodup) (hbound : ∀ x ∈ treeIds s, x < n)
    (hok : (recomposeScope (fuel + 1) c s n).panic = none) :
    ((recomposeScope (fuel + 1) c s n).calls.count s.id = 1) ∧
    ((composeInput s).stateIndex = 0) ∧
    (∀ i (h : i < s.states.length), (s.states.get ⟨i, h⟩).changed = .queued →
      ((composeInput s).states.get ⟨i, by simpa using h⟩).changed = .changed) ∧
    (∃ s2 n2 cs2, composeBody fuel c (composeInput s) n = ⟨s2, n2, cs2, none⟩ ∧
      (recomposeScope (fuel + 1) c s n).scope.states = demoteChanged s2.states) ∧
    (∀ st ∈ (recomposeScope (fuel + 1) c s n).scope.states, st.changed ≠ .changed) := by
  obtain ⟨s2, n2, cs2, hb⟩ := recomposeScope_body_ok fuel c s n hok
  have hstates := recomposeScope_states_demoted fuel c s n s2 n2 cs2 hb hok
  refine ⟨recomposeScope_count_one fuel c s n hnodup hbound, composeInput_stateIndex s,
    ?_, ⟨s2, n2, cs2, hb, hstates⟩, ?_⟩
  · intro i h hq
    have hgeti : (composeInput s).states.get ⟨i, by simpa using h⟩ =
        promoteSlot (s.states.get ⟨i, h⟩) := by
      simp [List.get_eq_getElem, promoteQueued]
    rw [hgeti]
    exact promoteSlot_of_queued _ hq
  · intro st hst
    rw [hstates] at hst
    exact demoteChanged_no_changed s2.states st hst

def c1Comp : Comp := .leaf [.useState .tNat (.nat 0)] .empty

def c1Ex : Scope := .mk 10 0 false c1Comp 0 [⟨.generated 3, .queued, .nat 0⟩] []

theorem C1_recompose_protocol_witness :
    ((recomposeScope 9 c1Comp c1Ex 11).calls.count c1Ex.id = 1) ∧
    (∀ st ∈ (recomposeScope 9 c1Comp c1Ex 11).scope.states, st.changed ≠ .changed) :=
  ⟨(C1_recompose_protocol 8 c1Comp c1Ex 11 (by decide) (by decide) (by decide)).1,
    (C1_recompose_protocol 8 c1Comp c1Ex 11 (by decide) (by decide) (by decide)).2.2.2.2⟩
